import Mathlib

/-!
RSI chart pipeline (`src/index.js`): indicator computation and series alignment.

A shallow embedding of `calculateRSI`, `calculateEMA`, `calculateWMA`,
`padStartToMatch` and of the alignment block of `renderRSIChart`
(lines 157-178), followed by theorems about them.

Modelling conventions.
* A JavaScript number is a `JSNum`: an exact rational, `+Infinity`, `-Infinity`
  or `NaN`.  Rounding of IEEE doubles is abstracted (exact arithmetic) and the
  sign of zero is not tracked: every zero is `+0`, which is the only zero that
  reaches a divisor in the code modelled here.
* A point `{x, y}` has an integer position `x` and a value `y` that is either a
  number or `null` (`none`).
* Reading `.x` or `.y` of `data[i]` with `i` out of range throws a `TypeError`;
  functions that index an array return `Except JSError`.
* A `for` loop is a recursive function on the loop index and the number of
  iterations left; a loop that pushes to `result` returns the pushed points in
  push order.
-/

namespace RsiChart

/-! ## JavaScript numbers -/

/-- A JavaScript number in exact arithmetic. -/
inductive JSNum where
  | fin (q : ℚ)
  | posInf
  | negInf
  | nan
deriving DecidableEq

namespace JSNum

/-- Unary minus. -/
def neg : JSNum → JSNum
  | fin a => fin (-a)
  | posInf => negInf
  | negInf => posInf
  | nan => nan

/-- The `+` of two numbers. -/
def add : JSNum → JSNum → JSNum
  | fin a, fin b => fin (a + b)
  | fin _, posInf => posInf
  | fin _, negInf => negInf
  | posInf, fin _ => posInf
  | posInf, posInf => posInf
  | posInf, negInf => nan
  | negInf, fin _ => negInf
  | negInf, negInf => negInf
  | negInf, posInf => nan
  | nan, _ => nan
  | _, nan => nan

/-- The `-` of two numbers. -/
def sub (a b : JSNum) : JSNum := add a (neg b)

/-- The product of an infinity (`+Infinity` when `positive`, else `-Infinity`) with
the finite number `q`: `NaN` when `q = 0`. -/
def infTimes (positive : Bool) (q : ℚ) : JSNum :=
  if q = 0 then nan
  else if (0 < q) = positive then posInf else negInf

/-- The `*` of two numbers. -/
def mul : JSNum → JSNum → JSNum
  | fin a, fin b => fin (a * b)
  | fin a, posInf => infTimes true a
  | fin a, negInf => infTimes false a
  | posInf, fin b => infTimes true b
  | negInf, fin b => infTimes false b
  | posInf, posInf => posInf
  | posInf, negInf => negInf
  | negInf, posInf => negInf
  | negInf, negInf => posInf
  | nan, _ => nan
  | _, nan => nan

/-- The `/` of two numbers; a zero divisor is `+0`. -/
def div : JSNum → JSNum → JSNum
  | fin a, fin b =>
    if b = 0 then
      if a = 0 then nan else if 0 < a then posInf else negInf
    else fin (a / b)
  | fin _, posInf => fin 0
  | fin _, negInf => fin 0
  | posInf, fin b => if 0 ≤ b then posInf else negInf
  | negInf, fin b => if 0 ≤ b then negInf else posInf
  | posInf, posInf => nan
  | posInf, negInf => nan
  | negInf, posInf => nan
  | negInf, negInf => nan
  | nan, _ => nan
  | _, nan => nan

/-- The test `a >= 0`. -/
def geZero : JSNum → Bool
  | fin a => decide (0 ≤ a)
  | posInf => true
  | negInf => false
  | nan => false

/-- The rational carried by a finite number, `0` otherwise. -/
def toRat : JSNum → ℚ
  | fin a => a
  | _ => 0

end JSNum

/-! ## Points and array access -/

/-- The only error the modelled code can raise: a property read on `undefined`. -/
inductive JSError where
  | typeError
deriving DecidableEq

/-- A chart point `{x, y}`; `y = none` is `null`. -/
structure Point where
  x : Int
  y : Option JSNum
deriving DecidableEq

/-- The coercion `ToNumber` applied to a point value: `null` becomes `0`. -/
def toNumber : Option JSNum → JSNum
  | some v => v
  | none => JSNum.fin 0

/-- The expression `data[i]` followed by a property read: a `TypeError` when `i`
is not an index of `data`. -/
def getPt (data : List Point) (i : Int) : Except JSError Point :=
  if i < 0 then Except.error JSError.typeError
  else
    match data[i.toNat]? with
    | some p => Except.ok p
    | none => Except.error JSError.typeError

/-! ## `calculateRSI` (lines 25-55) -/

/-- The pair `avgGain`, `avgLoss`. -/
structure RSIState where
  avgGain : JSNum
  avgLoss : JSNum
deriving DecidableEq

/-- Lines 29-33: the seed loop `for (let i = 1; i <= period; i++)`, from index
`i` with `k` iterations left, on the accumulators `gains` and `losses`. -/
def seedLoop (data : List Point) : Nat → Nat → JSNum → JSNum → Except JSError (JSNum × JSNum)
  | _, 0, gains, losses => pure (gains, losses)
  | i, k + 1, gains, losses => do
    let cur ← getPt data i
    let prev ← getPt data ((i : Int) - 1)
    let diff := (toNumber cur.y).sub (toNumber prev.y)
    if diff.geZero then seedLoop data (i + 1) k (gains.add diff) losses
    else seedLoop data (i + 1) k gains (losses.sub diff)

/-- Lines 37-38 and 50-51: `rs = avgGain / avgLoss; rsi = 100 - (100 / (1 + rs))`. -/
def rsiOf (s : RSIState) : JSNum :=
  let rs := s.avgGain.div s.avgLoss
  (JSNum.fin 100).sub ((JSNum.fin 100).div ((JSNum.fin 1).add rs))

/-- Lines 43-49: the update of `avgGain` and `avgLoss` by one `diff`. -/
def rsiUpdate (period : Nat) (s : RSIState) (diff : JSNum) : RSIState :=
  let pm1 := (JSNum.fin period).sub (JSNum.fin 1)
  if diff.geZero then
    { avgGain := ((s.avgGain.mul pm1).add diff).div (JSNum.fin period)
      avgLoss := (s.avgLoss.mul pm1).div (JSNum.fin period) }
  else
    { avgGain := (s.avgGain.mul pm1).div (JSNum.fin period)
      avgLoss := ((s.avgLoss.mul pm1).sub diff).div (JSNum.fin period) }

/-- Lines 41-53: the loop `for (let i = period + 1; i < data.length; i++)`, from
index `i` with `k` iterations left; returns the points pushed. -/
def rsiLoop (data : List Point) (period : Nat) : Nat → Nat → RSIState → Except JSError (List Point)
  | _, 0, _ => pure []
  | i, k + 1, s => do
    let cur ← getPt data i
    let prev ← getPt data ((i : Int) - 1)
    let diff := (toNumber cur.y).sub (toNumber prev.y)
    let s' := rsiUpdate period s diff
    let pt : Point := { x := cur.x, y := some (rsiOf s') }
    let rest ← rsiLoop data period (i + 1) k s'
    pure (pt :: rest)

/-- Lines 27-36: the seed averages. -/
def rsiSeed (data : List Point) (period : Nat) : Except JSError RSIState := do
  let (gains, losses) ← seedLoop data 1 period (JSNum.fin 0) (JSNum.fin 0)
  pure { avgGain := gains.div (JSNum.fin period), avgLoss := losses.div (JSNum.fin period) }

/-- The function `calculateRSI(data, period)`. -/
def calculateRSI (data : List Point) (period : Nat) : Except JSError (List Point) := do
  let s ← rsiSeed data period
  let atPeriod ← getPt data period
  let first : Point := { x := atPeriod.x, y := some (rsiOf s) }
  let rest ← rsiLoop data period (period + 1) (data.length - (period + 1)) s
  pure (first :: rest)

/-! ## `calculateEMA` (lines 57-76) -/

/-- Lines 66-68: the loop `for (let j = 0; j < period; j++) sum += data[i - j].y`,
from `j` with `k` iterations left. -/
def emaSumLoop (data : List Point) (i : Nat) : Nat → Nat → JSNum → Except JSError JSNum
  | _, 0, sum => pure sum
  | j, k + 1, sum => do
    let pt ← getPt data ((i : Int) - (j : Int))
    emaSumLoop data i (j + 1) k (sum.add (toNumber pt.y))

/-- Lines 62-74: the loop `for (let i = 0; i < data.length; i++)`, from index `i`
with `k` iterations left; `emaPrev = none` is `undefined`.  Returns the points
pushed. -/
def emaLoop (data : List Point) (period : Nat) (multiplier : JSNum) :
    Nat → Nat → Option JSNum → Except JSError (List Point)
  | _, 0, _ => pure []
  | i, k + 1, emaPrev =>
    if i < period then emaLoop data period multiplier (i + 1) k emaPrev
    else do
      let ema ← match emaPrev with
        | none => do
          let sum ← emaSumLoop data i 0 period (JSNum.fin 0)
          pure (sum.div (JSNum.fin period))
        | some prev => do
          let cur ← getPt data i
          pure ((((toNumber cur.y).sub prev).mul multiplier).add prev)
      let cur ← getPt data i
      let pt : Point := { x := cur.x, y := some ema }
      let rest ← emaLoop data period multiplier (i + 1) k (some ema)
      pure (pt :: rest)

/-- The function `calculateEMA(data, period)`. -/
def calculateEMA (data : List Point) (period : Nat) : Except JSError (List Point) :=
  let multiplier := (JSNum.fin 2).div ((JSNum.fin period).add (JSNum.fin 1))
  emaLoop data period multiplier 0 data.length none

/-! ## `calculateWMA` (lines 78-90) -/

/-- Lines 84-86: the loop `for (let j = 0; j < period; j++)
weightedSum += data[i - j].y * (period - j)`, from `j` with `k` iterations left. -/
def wmaSumLoop (data : List Point) (period i : Nat) : Nat → Nat → JSNum → Except JSError JSNum
  | _, 0, weightedSum => pure weightedSum
  | j, k + 1, weightedSum => do
    let pt ← getPt data ((i : Int) - (j : Int))
    let weight := (JSNum.fin period).sub (JSNum.fin j)
    wmaSumLoop data period i (j + 1) k (weightedSum.add ((toNumber pt.y).mul weight))

/-- Lines 82-88: the loop `for (let i = period; i < data.length; i++)`, from index
`i` with `k` iterations left; returns the points pushed. -/
def wmaLoop (data : List Point) (period : Nat) (denominator : JSNum) :
    Nat → Nat → Except JSError (List Point)
  | _, 0 => pure []
  | i, k + 1 => do
    let weightedSum ← wmaSumLoop data period i 0 period (JSNum.fin 0)
    let cur ← getPt data i
    let pt : Point := { x := cur.x, y := some (weightedSum.div denominator) }
    let rest ← wmaLoop data period denominator (i + 1) k
    pure (pt :: rest)

/-- The function `calculateWMA(data, period)`. -/
def calculateWMA (data : List Point) (period : Nat) : Except JSError (List Point) :=
  let denominator :=
    ((JSNum.fin period).mul ((JSNum.fin period).add (JSNum.fin 1))).div (JSNum.fin 2)
  wmaLoop data period denominator period (data.length - period)

/-! ## `padStartToMatch` (lines 92-99) -/

/-- The padding point built from a reference point. -/
def nullAt (r : Point) : Point := { x := r.x, y := none }

/-- Lines 94-97: the elements `{x: refData[i].x, y: null}` of `Array.from`, from
index `i` with `k` elements left. -/
def padLoop (refData : List Point) : Nat → Nat → Except JSError (List Point)
  | _, 0 => pure []
  | i, k + 1 => do
    let r ← getPt refData i
    let pt : Point := { x := r.x, y := none }
    let rest ← padLoop refData (i + 1) k
    pure (pt :: rest)

/-- The function `padStartToMatch(refData, targetData)`; `Array.from` builds the
empty array when `length` is negative. -/
def padStartToMatch (refData targetData : List Point) : Except JSError (List Point) := do
  let padLength : Int := (refData.length : Int) - (targetData.length : Int)
  let padded ← padLoop refData 0 padLength.toNat
  pure (padded ++ targetData)

/-! ## The alignment block of `renderRSIChart` (lines 157-178) -/

/-- The method `findIndex`: the first index whose element satisfies `p`, `-1`
when there is none. -/
def findIndex (xs : List Point) (p : Point → Bool) : Int :=
  if xs.findIdx p < xs.length then (xs.findIdx p : Int) else -1

/-- The method `slice(start)`: a negative `start` counts from the end. -/
def slice (xs : List Point) (start : Int) : List Point :=
  let k : Int := if start < 0 then max ((xs.length : Int) + start) 0 else min start xs.length
  xs.drop k.toNat

/-- Lines 169-174: the loop `for (let i = 1; i <= paddingPoints; i++)`, from `i`
with `k` iterations left: the points `{x: lastX + i, y: null}` pushed to each of
the three arrays. -/
def trailingLoop (lastX : Int) : Nat → Nat → List Point
  | _, 0 => []
  | i, k + 1 => { x := lastX + (i : Int), y := none } :: trailingLoop lastX (i + 1) k

/-- The three series `paddedRSIData`, `paddedEMAData`, `paddedWMAData`. -/
structure Aligned where
  paddedRSIData : List Point
  paddedEMAData : List Point
  paddedWMAData : List Point
deriving DecidableEq

/-- Lines 157-178 of `renderRSIChart`, as a function of `closePrices`. -/
def alignSeries (closePrices : List Point) : Except JSError Aligned := do
  let rsiData ← calculateRSI closePrices 14
  let emaDataRaw ← calculateEMA rsiData 9
  let wmaDataRaw ← calculateWMA rsiData 45
  let emaData ← padStartToMatch rsiData emaDataRaw
  let wmaData ← padStartToMatch rsiData wmaDataRaw
  let emaStartIndex := findIndex emaData (fun item => item.y != none)
  let wmaStartIndex := findIndex wmaData (fun item => item.y != none)
  let paddingPoints := 50
  let last ← getPt rsiData ((rsiData.length : Int) - 1)
  let lastX := last.x
  let trailing := trailingLoop lastX 1 paddingPoints
  let rsiData := rsiData ++ trailing
  let emaData := emaData ++ trailing
  let wmaData := wmaData ++ trailing
  pure
    { paddedRSIData := slice rsiData (max emaStartIndex wmaStartIndex)
      paddedEMAData := slice emaData (max emaStartIndex wmaStartIndex)
      paddedWMAData := slice wmaData (max emaStartIndex wmaStartIndex) }

/-! ## Predicates and reference quantities used in the statements -/

/-- Positions are contiguous: `s[i].x = s[0].x + i` for every index `i`. -/
def Contiguous (s : List Point) : Prop :=
  ∀ (i : Nat) (h : i < s.length), s[i].x = (s.get ⟨0, Nat.zero_lt_of_lt h⟩).x + (i : Int)

instance (s : List Point) : Decidable (Contiguous s) := by
  unfold Contiguous; infer_instance

/-- Positions strictly increase with step 1: each point is one past its
predecessor. -/
def StepOne (s : List Point) : Prop :=
  ∀ (i : Nat) (h : i + 1 < s.length), s[i + 1].x = (s.get ⟨i, Nat.lt_of_succ_lt h⟩).x + 1

/-- The number is finite (neither an infinity nor `NaN`). -/
def JSNum.isFinite : JSNum → Bool
  | JSNum.fin _ => true
  | _ => false

/-- Every value of the series reads as a finite number. -/
def AllFinite (data : List Point) : Prop :=
  ∀ pt ∈ data, (toNumber pt.y).isFinite = true

instance (data : List Point) : Decidable (AllFinite data) := by
  unfold AllFinite; infer_instance

/-- The point with `null` replaced by the number `0`. -/
def zeroForNull (pt : Point) : Point := { x := pt.x, y := some (toNumber pt.y) }

/-- The states after each iteration of the loop of lines 41-53: the recursion of
`rsiLoop`, collecting `avgGain`, `avgLoss` where `rsiLoop` pushes the point. -/
def statesLoop (data : List Point) (period : Nat) :
    Nat → Nat → RSIState → Except JSError (List RSIState)
  | _, 0, _ => pure []
  | i, k + 1, s => do
    let cur ← getPt data i
    let prev ← getPt data ((i : Int) - 1)
    let diff := (toNumber cur.y).sub (toNumber prev.y)
    let s' := rsiUpdate period s diff
    let rest ← statesLoop data period (i + 1) k s'
    pure (s' :: rest)

/-- The averages behind each value emitted by `calculateRSI`: the seed averages,
then the averages after each iteration of the main loop. -/
def rsiStates (data : List Point) (period : Nat) : Except JSError (List RSIState) := do
  let s ← rsiSeed data period
  let _ ← getPt data period
  let rest ← statesLoop data period (period + 1) (data.length - (period + 1)) s
  pure (s :: rest)

/-- The average loss is non-zero at every step of `calculateRSI`. -/
def NonDegenerate (data : List Point) (period : Nat) : Prop :=
  match rsiStates data period with
  | Except.ok ss => ∀ s ∈ ss, s.avgLoss ≠ JSNum.fin 0
  | Except.error _ => False

instance (data : List Point) (period : Nat) : Decidable (NonDegenerate data period) := by
  unfold NonDegenerate; split <;> infer_instance

/-- The averages are finite and non-negative. -/
def FiniteNonneg (s : RSIState) : Prop :=
  ∃ g l : ℚ, s = { avgGain := JSNum.fin g, avgLoss := JSNum.fin l } ∧ 0 ≤ g ∧ 0 ≤ l

/-- The value at index `i` as a rational (`0` when there is none). -/
def valueAt (data : List Point) (i : Nat) : ℚ :=
  match data[i]? with
  | some pt => (toNumber pt.y).toRat
  | none => 0

/-- The transition into index `i`: `data[i].y - data[i - 1].y`. -/
def delta (data : List Point) (i : Nat) : ℚ := valueAt data i - valueAt data (i - 1)

/-- The sum of the positive deltas over the transitions `1..p`. -/
def seedGains (data : List Point) (p : Nat) : ℚ :=
  ((List.range' 1 p).map (fun i => if 0 < delta data i then delta data i else 0)).sum

/-- The sum of the magnitudes of the negative deltas over the transitions `1..p`. -/
def seedLosses (data : List Point) (p : Nat) : ℚ :=
  ((List.range' 1 p).map (fun i => if delta data i < 0 then |delta data i| else 0)).sum

/-! ## Concrete inputs -/

deriving instance DecidableEq for Except

/-- A series with positions `0, 1, 2, ...` and the given finite values, as
`fetchKlines` builds it (line 22). -/
def mkSeries (ys : List ℚ) : List Point :=
  ys.enum.map (fun iy => { x := (iy.1 : Int), y := some (JSNum.fin iy.2) })

/-- The 20 closing values of the concrete scenario. -/
def scenario20 : List Point :=
  mkSeries [100, 102, 101, 105, 107, 106, 110, 108, 111, 115, 114, 116, 120, 118, 119, 121,
    123, 122, 125, 124]

/-- The first 15 points of the concrete scenario. -/
def scenario15 : List Point :=
  mkSeries [100, 102, 101, 105, 107, 106, 110, 108, 111, 115, 114, 116, 120, 118, 119]

/-- Three points, used with period 2. -/
def threePoints : List Point := mkSeries [10, 20, 30]

/-- Three points whose middle value is `null`. -/
def nullInWindow : List Point :=
  [{ x := 0, y := some (JSNum.fin 1) }, { x := 1, y := none }, { x := 2, y := some (JSNum.fin 3) }]

/-! ## Reference quantities for the recurrences -/

/-- The state holding the two rational averages. -/
def RSIState.ofRat (s : ℚ × ℚ) : RSIState :=
  { avgGain := JSNum.fin s.1, avgLoss := JSNum.fin s.2 }

/-- One step of Wilder's smoothing on the pair `(avgGain, avgLoss)`: a delta
`diff >= 0` enters the average gain, a negative one enters the average loss by
its magnitude. -/
def wilderStep (p : Nat) (s : ℚ × ℚ) (diff : ℚ) : ℚ × ℚ :=
  if 0 ≤ diff then ((s.1 * ((p : ℚ) - 1) + diff) / p, s.2 * ((p : ℚ) - 1) / p)
  else (s.1 * ((p : ℚ) - 1) / p, (s.2 * ((p : ℚ) - 1) + |diff|) / p)

/-- The Wilder fold: the seed averages, then one step per transition
`data[p + k].y - data[p + k - 1].y`. -/
def wilder (data : List Point) (p : Nat) : Nat → ℚ × ℚ
  | 0 => (seedGains data p / p, seedLosses data p / p)
  | k + 1 => wilderStep p (wilder data p k) (delta data (p + (k + 1)))

/-- The exponential moving average by the recurrence: the simple average of the
`q` values `data[1].y .. data[q].y`, then
`(v - emaPrev) * (2 / (q + 1)) + emaPrev` with `v = data[q + m].y`. -/
def emaRef (data : List Point) (q : Nat) : Nat → ℚ
  | 0 => ((List.range' 1 q).map (valueAt data)).sum / q
  | m + 1 =>
    (valueAt data (q + (m + 1)) - emaRef data q m) * (2 / ((q : ℚ) + 1)) + emaRef data q m

/-- The weight of the `j`-th point back from the end of a window of `q` points. -/
def wmaWeight (q j : Nat) : ℚ := (q : ℚ) - (j : ℚ)

/-- The linearly weighted average of the window of `q` points ending at index
`i`: the weighted sum over the triangular number `q * (q + 1) / 2`. -/
def wmaRef (data : List Point) (q i : Nat) : ℚ :=
  ((List.range q).map (fun j => valueAt data (i - j) * wmaWeight q j)).sum
    / ((q : ℚ) * ((q : ℚ) + 1) / 2)

/-- Every value of the series reads as a finite number of the interval
`[lo, hi]`. -/
def ValuesIn (data : List Point) (lo hi : ℚ) : Prop :=
  ∀ pt ∈ data, (toNumber pt.y).isFinite = true ∧
    lo ≤ (toNumber pt.y).toRat ∧ (toNumber pt.y).toRat ≤ hi

instance (data : List Point) (lo hi : ℚ) : Decidable (ValuesIn data lo hi) := by
  unfold ValuesIn; infer_instance

/-- The trailing points `{x: lastX + i, y: null}` for `i = 1..n`. -/
def trailingPoints (lastX : Int) (n : Nat) : List Point :=
  (List.range' 1 n).map (fun (i : Nat) => { x := lastX + (i : Int), y := none })

/-- The 24-point input: the 20-point scenario followed by four more values. -/
def scenario24 : List Point :=
  mkSeries [100, 102, 101, 105, 107, 106, 110, 108, 111, 115, 114, 116, 120, 118, 119, 121,
    123, 122, 125, 124, 126, 123, 127, 128]

/-- A 200-point input, the length `fetchKlines` asks for by default. -/
def scenario200 : List Point :=
  mkSeries ((List.range 200).map (fun i => (100 : ℚ) + ((i * i % 7 : Nat) : ℚ)))

/-- Four points, used with period 2. -/
def fourPoints : List Point := mkSeries [10, 20, 60, 100]

/-- The RSI series of the 20-point scenario with period 14. -/
def scenario20RSI : List Point :=
  [{ x := 14, y := some (JSNum.fin (2600 / 33)) },
    { x := 15, y := some (JSNum.fin (36600 / 457)) },
    { x := 16, y := some (JSNum.fin (515000 / 6333)) },
    { x := 17, y := some (JSNum.fin (6695000 / 85073)) },
    { x := 18, y := some (JSNum.fin (98559800 / 1221197)) },
    { x := 19, y := some (JSNum.fin (256255480 / 3282677)) }]

/-! ## Array access and the error monad -/

theorem bind_ok {α β : Type} (a : α) (f : α → Except JSError β) :
    (Except.ok a >>= f) = f a := rfl

theorem pure_bind_ok {α β : Type} (a : α) (f : α → Except JSError β) :
    ((pure a : Except JSError α) >>= f) = f a := rfl

theorem bind_error {α β : Type} (e : JSError) (f : α → Except JSError β) :
    ((Except.error e : Except JSError α) >>= f) = Except.error e := rfl

theorem getPt_of_lt (data : List Point) (i : Nat) (h : i < data.length) :
    getPt data (i : Int) = Except.ok data[i] := by
  simp [getPt, List.getElem?_eq_getElem h]

theorem getPt_of_ge (data : List Point) (i : Nat) (h : data.length ≤ i) :
    getPt data (i : Int) = Except.error JSError.typeError := by
  simp [getPt, List.getElem?_eq_none h]

theorem getPt_sub (data : List Point) (i j : Nat) (h : j ≤ i) :
    getPt data ((i : Int) - (j : Int)) = getPt data ((i - j : Nat) : Int) := by
  rw [Nat.cast_sub h]

theorem getPt_pred (data : List Point) (i : Nat) (h : 1 ≤ i) :
    getPt data ((i : Int) - 1) = getPt data ((i - 1 : Nat) : Int) := by
  have := getPt_sub data i 1 h
  simpa using this

/-! ## `calculateRSI`: termination with a result, length, positions -/

theorem seedLoop_ok (data : List Point) (k : Nat) :
    ∀ (i : Nat) (gains losses : JSNum), 1 ≤ i → i + k ≤ data.length →
      ∃ g l, seedLoop data i k gains losses = Except.ok (g, l) := by
  induction k with
  | zero => intro i gains losses _ _; exact ⟨gains, losses, rfl⟩
  | succ k ih =>
    intro i gains losses hi hlen
    have h1 : i < data.length := by omega
    have h2 : i - 1 < data.length := by omega
    simp only [seedLoop, getPt_of_lt data i h1, getPt_pred data i hi, getPt_of_lt data (i - 1) h2,
      bind_ok]
    split
    · exact ih (i + 1) _ _ (by omega) (by omega)
    · exact ih (i + 1) _ _ (by omega) (by omega)

theorem seedLoop_error (data : List Point) (k : Nat) :
    ∀ (i : Nat) (gains losses : JSNum), 1 ≤ i → data.length ≤ i + k →
      seedLoop data i (k + 1) gains losses = Except.error JSError.typeError := by
  induction k with
  | zero =>
    intro i gains losses hi hlen
    simp only [seedLoop, getPt_of_ge data i (by omega), bind_error]
  | succ k ih =>
    intro i gains losses hi hlen
    by_cases h1 : i < data.length
    · have h2 : i - 1 < data.length := by omega
      rw [seedLoop]
      simp only [getPt_of_lt data i h1, getPt_pred data i hi,
        getPt_of_lt data (i - 1) h2, bind_ok]
      split
      · exact ih (i + 1) _ _ (by omega) (by omega)
      · exact ih (i + 1) _ _ (by omega) (by omega)
    · simp only [seedLoop, getPt_of_ge data i (by omega), bind_error]

theorem drop_take_succ (data : List Point) (i k : Nat) (h : i < data.length) :
    (data.drop i).take (k + 1) = data[i] :: (data.drop (i + 1)).take k := by
  rw [List.drop_eq_getElem_cons h, List.take_succ_cons]

theorem rsiLoop_ok (data : List Point) (period k : Nat) :
    ∀ (i : Nat) (s : RSIState), 1 ≤ i → i + k ≤ data.length →
      ∃ r, rsiLoop data period i k s = Except.ok r ∧
        r.map Point.x = ((data.drop i).take k).map Point.x := by
  induction k with
  | zero => intro i s _ _; exact ⟨[], rfl, by simp⟩
  | succ k ih =>
    intro i s hi hlen
    have h1 : i < data.length := by omega
    have h2 : i - 1 < data.length := by omega
    obtain ⟨r, hr, hx⟩ := ih (i + 1)
      (rsiUpdate period s ((toNumber data[i].y).sub (toNumber data[i - 1].y))) (by omega) (by omega)
    refine ⟨{ x := data[i].x, y := some (rsiOf (rsiUpdate period s
      ((toNumber data[i].y).sub (toNumber data[i - 1].y)))) } :: r, ?_, ?_⟩
    · simp only [rsiLoop, getPt_of_lt data i h1, getPt_pred data i hi,
        getPt_of_lt data (i - 1) h2, bind_ok, hr]
      rfl
    · rw [drop_take_succ data i k h1]
      simp [hx]

theorem rsiSeed_ok (data : List Point) (period : Nat) (h : period < data.length) :
    ∃ s, rsiSeed data period = Except.ok s := by
  obtain ⟨g, l, hgl⟩ := seedLoop_ok data period 1 (JSNum.fin 0) (JSNum.fin 0) (le_refl 1) (by omega)
  exact ⟨_, by simp only [rsiSeed, hgl, bind_ok]; rfl⟩

theorem calculateRSI_ok (data : List Point) (period : Nat) (h : period < data.length) :
    ∃ r, calculateRSI data period = Except.ok r ∧
      r.map Point.x = (data.drop period).map Point.x := by
  obtain ⟨s, hs⟩ := rsiSeed_ok data period h
  obtain ⟨r, hr, hx⟩ := rsiLoop_ok data period (data.length - (period + 1)) (period + 1) s
    (by omega) (by omega)
  refine ⟨{ x := data[period].x, y := some (rsiOf s) } :: r, ?_, ?_⟩
  · simp only [calculateRSI, hs, bind_ok, getPt_of_lt data period h, hr]
    rfl
  · rw [List.drop_eq_getElem_cons h]
    have : (data.drop (period + 1)).take (data.length - (period + 1)) = data.drop (period + 1) :=
      List.take_of_length_le (by simp)
    rw [List.map_cons, hx, this, List.map_cons]

theorem calculateRSI_error (data : List Point) (period : Nat) (hp : 1 ≤ period)
    (h : data.length ≤ period) :
    calculateRSI data period = Except.error JSError.typeError := by
  obtain ⟨k, rfl⟩ : ∃ k, period = k + 1 := ⟨period - 1, by omega⟩
  have := seedLoop_error data k 1 (JSNum.fin 0) (JSNum.fin 0) (le_refl 1) (by omega)
  simp only [calculateRSI, rsiSeed, this, bind_error]

/-! ## `calculateEMA` and `calculateWMA`: termination with a result, positions -/

theorem emaSumLoop_ok (data : List Point) (i k : Nat) (hi : i < data.length) :
    ∀ (j : Nat) (sum : JSNum), j + k ≤ i + 1 →
      ∃ v, emaSumLoop data i j k sum = Except.ok v := by
  induction k with
  | zero => intro j sum _; exact ⟨sum, rfl⟩
  | succ k ih =>
    intro j sum hj
    have h1 : i - j < data.length := by omega
    simp only [emaSumLoop, getPt_sub data i j (by omega), getPt_of_lt data (i - j) h1, bind_ok]
    exact ih (j + 1) _ (by omega)

theorem emaLoop_ok (data : List Point) (period : Nat) (multiplier : JSNum) (k : Nat) :
    ∀ (i : Nat) (emaPrev : Option JSNum), i + k ≤ data.length →
      ∃ r, emaLoop data period multiplier i k emaPrev = Except.ok r ∧
        r.map Point.x
          = ((data.drop (max i period)).take (i + k - max i period)).map Point.x := by
  induction k with
  | zero =>
    intro i emaPrev _
    refine ⟨[], rfl, ?_⟩
    have : i + 0 - max i period = 0 := by omega
    simp [this]
  | succ k ih =>
    intro i emaPrev hlen
    by_cases hip : i < period
    · obtain ⟨r, hr, hx⟩ := ih (i + 1) emaPrev (by omega)
      refine ⟨r, ?_, ?_⟩
      · rw [emaLoop, if_pos hip, hr]
      · have e1 : max (i + 1) period = max i period := by omega
        have e2 : i + 1 + k = i + (k + 1) := by omega
        rw [hx, e1, e2]
    · have h1 : i < data.length := by omega
      have e1 : max i period = i := by omega
      have e2 : max (i + 1) period = i + 1 := by omega
      have e3 : i + (k + 1) - i = k + 1 := by omega
      have e4 : i + 1 + k - (i + 1) = k := by omega
      cases emaPrev with
      | none =>
        obtain ⟨v, hv⟩ := emaSumLoop_ok data i period h1 0 (JSNum.fin 0) (by omega)
        obtain ⟨r, hr, hx⟩ := ih (i + 1) (some (v.div (JSNum.fin period))) (by omega)
        refine ⟨{ x := data[i].x, y := some (v.div (JSNum.fin period)) } :: r, ?_, ?_⟩
        · rw [emaLoop, if_neg hip]
          simp only [hv, bind_ok, pure_bind_ok, getPt_of_lt data i h1, hr]
          rfl
        · rw [e1, e3, drop_take_succ data i k h1]
          rw [e2, e4] at hx
          simp [hx]
      | some prev =>
        obtain ⟨r, hr, hx⟩ := ih (i + 1)
          (some ((((toNumber data[i].y).sub prev).mul multiplier).add prev)) (by omega)
        refine ⟨{ x := data[i].x,
                  y := some ((((toNumber data[i].y).sub prev).mul multiplier).add prev) } :: r,
          ?_, ?_⟩
        · rw [emaLoop, if_neg hip]
          simp only [bind_ok, pure_bind_ok, getPt_of_lt data i h1, hr]
          rfl
        · rw [e1, e3, drop_take_succ data i k h1]
          rw [e2, e4] at hx
          simp [hx]

theorem calculateEMA_ok (data : List Point) (period : Nat) :
    ∃ r, calculateEMA data period = Except.ok r ∧
      r.map Point.x = (data.drop period).map Point.x := by
  obtain ⟨r, hr, hx⟩ := emaLoop_ok data period
    ((JSNum.fin 2).div ((JSNum.fin period).add (JSNum.fin 1))) data.length 0 none (by omega)
  refine ⟨r, hr, ?_⟩
  have e1 : max 0 period = period := by omega
  have e2 : (data.drop period).take (0 + data.length - period) = data.drop period :=
    List.take_of_length_le (by simp)
  rw [hx, e1, e2]

theorem wmaSumLoop_ok (data : List Point) (period i k : Nat) (hi : i < data.length) :
    ∀ (j : Nat) (weightedSum : JSNum), j + k ≤ i + 1 →
      ∃ v, wmaSumLoop data period i j k weightedSum = Except.ok v := by
  induction k with
  | zero => intro j ws _; exact ⟨ws, rfl⟩
  | succ k ih =>
    intro j ws hj
    have h1 : i - j < data.length := by omega
    simp only [wmaSumLoop, getPt_sub data i j (by omega), getPt_of_lt data (i - j) h1, bind_ok]
    exact ih (j + 1) _ (by omega)

theorem wmaLoop_ok (data : List Point) (period : Nat) (denominator : JSNum) (k : Nat) :
    ∀ (i : Nat), period ≤ i → i + k ≤ data.length →
      ∃ r, wmaLoop data period denominator i k = Except.ok r ∧
        r.map Point.x = ((data.drop i).take k).map Point.x := by
  induction k with
  | zero => intro i _ _; exact ⟨[], rfl, by simp⟩
  | succ k ih =>
    intro i hip hlen
    have h1 : i < data.length := by omega
    obtain ⟨v, hv⟩ := wmaSumLoop_ok data period i period h1 0 (JSNum.fin 0) (by omega)
    obtain ⟨r, hr, hx⟩ := ih (i + 1) (by omega) (by omega)
    refine ⟨{ x := data[i].x, y := some (v.div denominator) } :: r, ?_, ?_⟩
    · simp only [wmaLoop, hv, bind_ok, getPt_of_lt data i h1, hr]
      rfl
    · rw [drop_take_succ data i k h1]
      simp [hx]

theorem calculateWMA_ok (data : List Point) (period : Nat) :
    ∃ r, calculateWMA data period = Except.ok r ∧
      r.map Point.x = (data.drop period).map Point.x := by
  by_cases h : period ≤ data.length
  · obtain ⟨r, hr, hx⟩ := wmaLoop_ok data period
      (((JSNum.fin period).mul ((JSNum.fin period).add (JSNum.fin 1))).div (JSNum.fin 2))
      (data.length - period) period (le_refl _) (by omega)
    refine ⟨r, hr, ?_⟩
    have e2 : (data.drop period).take (data.length - period) = data.drop period :=
      List.take_of_length_le (by simp)
    rw [hx, e2]
  · refine ⟨[], ?_, ?_⟩
    · have : data.length - period = 0 := by omega
      simp only [calculateWMA, this]
      rfl
    · rw [List.drop_eq_nil_of_le (by omega)]

/-! ## `padStartToMatch` -/

theorem padLoop_eq (refData : List Point) (k : Nat) :
    ∀ (i : Nat), i + k ≤ refData.length →
      padLoop refData i k = Except.ok (((refData.drop i).take k).map nullAt) := by
  induction k with
  | zero => intro i _; simp [padLoop]; rfl
  | succ k ih =>
    intro i hlen
    have h1 : i < refData.length := by omega
    simp only [padLoop, getPt_of_lt refData i h1, bind_ok, ih (i + 1) (by omega),
      drop_take_succ refData i k h1, List.map_cons]
    rfl

theorem padStartToMatch_eq (refData targetData : List Point) :
    padStartToMatch refData targetData
      = Except.ok ((refData.take (refData.length - targetData.length)).map nullAt ++ targetData) := by
  have h := padLoop_eq refData (refData.length - targetData.length) 0 (by omega)
  simp only [padStartToMatch, Int.toNat_sub, h, bind_ok, List.drop_zero]
  rfl

theorem padStartToMatch_positions (rsi raw : List Point) (q : Nat)
    (hraw : raw.map Point.x = (rsi.drop q).map Point.x) :
    ∃ padded, padStartToMatch rsi raw = Except.ok padded ∧
      padded.map Point.x = rsi.map Point.x := by
  refine ⟨_, padStartToMatch_eq rsi raw, ?_⟩
  have hl : raw.length = rsi.length - q := by
    have := congrArg List.length hraw
    simpa using this
  have hmap : ∀ l : List Point, (l.map nullAt).map Point.x = l.map Point.x := by
    intro l; simp [nullAt, Function.comp_def]
  rw [List.map_append, hmap, hraw, ← List.map_append]
  by_cases hq : q ≤ rsi.length
  · have : rsi.length - raw.length = q := by omega
    rw [this, List.take_append_drop]
  · have e1 : rsi.length - raw.length = rsi.length := by omega
    rw [e1, List.take_length, List.drop_eq_nil_of_le (by omega), List.append_nil]

/-! ## The alignment block -/

theorem slice_positions (l₁ l₂ : List Point) (start : Int)
    (h : l₁.map Point.x = l₂.map Point.x) :
    (slice l₁ start).map Point.x = (slice l₂ start).map Point.x := by
  have hl : l₁.length = l₂.length := by
    have := congrArg List.length h
    simpa using this
  simp only [slice, hl, List.map_drop, h]

theorem alignSeries_ok (closePrices : List Point) (h : 14 < closePrices.length) :
    ∃ rsi emaRaw wmaRaw ema wma last,
      calculateRSI closePrices 14 = Except.ok rsi ∧
      calculateEMA rsi 9 = Except.ok emaRaw ∧
      calculateWMA rsi 45 = Except.ok wmaRaw ∧
      padStartToMatch rsi emaRaw = Except.ok ema ∧
      padStartToMatch rsi wmaRaw = Except.ok wma ∧
      rsi.map Point.x = (closePrices.drop 14).map Point.x ∧
      ema.map Point.x = rsi.map Point.x ∧
      wma.map Point.x = rsi.map Point.x ∧
      rsi.getLast? = some last ∧
      alignSeries closePrices = Except.ok
        { paddedRSIData := slice (rsi ++ trailingLoop last.x 1 50)
            (max (findIndex ema (fun item => item.y != none))
              (findIndex wma (fun item => item.y != none)))
          paddedEMAData := slice (ema ++ trailingLoop last.x 1 50)
            (max (findIndex ema (fun item => item.y != none))
              (findIndex wma (fun item => item.y != none)))
          paddedWMAData := slice (wma ++ trailingLoop last.x 1 50)
            (max (findIndex ema (fun item => item.y != none))
              (findIndex wma (fun item => item.y != none))) } := by
  obtain ⟨rsi, hrsi, hx⟩ := calculateRSI_ok closePrices 14 h
  obtain ⟨emaRaw, hema, hex⟩ := calculateEMA_ok rsi 9
  obtain ⟨wmaRaw, hwma, hwx⟩ := calculateWMA_ok rsi 45
  obtain ⟨ema, hpe, hpex⟩ := padStartToMatch_positions rsi emaRaw 9 hex
  obtain ⟨wma, hpw, hpwx⟩ := padStartToMatch_positions rsi wmaRaw 45 hwx
  have hlen : rsi.length = closePrices.length - 14 := by
    have := congrArg List.length hx
    simpa using this
  have hpos : rsi.length - 1 < rsi.length := by omega
  have hget : getPt rsi ((rsi.length : Int) - 1) = Except.ok rsi[rsi.length - 1] := by
    rw [getPt_pred rsi rsi.length (by omega), getPt_of_lt rsi (rsi.length - 1) hpos]
  refine ⟨rsi, emaRaw, wmaRaw, ema, wma, rsi[rsi.length - 1], hrsi, hema, hwma, hpe, hpw, hx,
    hpex, hpwx, ?_, ?_⟩
  · rw [List.getLast?_eq_getElem?, List.getElem?_eq_getElem hpos]
  · simp only [alignSeries, hrsi, hema, hwma, hpe, hpw, hget, bind_ok]
    rfl

/-! ## Monotone positions -/

theorem stepOne_iff_chain (s : List Point) :
    StepOne s ↔ List.Chain' (fun a b : Int => b = a + 1) (s.map Point.x) := by
  rw [List.chain'_map, List.chain'_iff_get]
  constructor
  · intro h i hi
    have := h i (by omega)
    simpa using this
  · intro h i hi
    have := h i (by omega)
    simpa using this

theorem stepOne_of_positions (a b : List Point) (h : a.map Point.x = b.map Point.x)
    (hb : StepOne b) : StepOne a := by
  rw [stepOne_iff_chain] at hb ⊢
  rw [h]; exact hb

theorem stepOne_drop (s : List Point) (n : Nat) (h : StepOne s) : StepOne (s.drop n) := by
  rw [stepOne_iff_chain] at h ⊢
  rw [List.map_drop]; exact h.drop n

theorem contiguous_stepOne (s : List Point) (h : Contiguous s) : StepOne s := by
  intro i hi
  have h1 := h (i + 1) hi
  have h0 := h i (by omega)
  simp only [List.get_eq_getElem] at h1 h0 ⊢
  rw [h1, h0]; push_cast; ring

theorem stepOne_slice (s : List Point) (start : Int) (h : StepOne s) :
    StepOne (slice s start) := stepOne_drop s _ h

theorem trailingLoop_chain (lastX : Int) (k : Nat) :
    ∀ i : Nat, List.Chain' (fun a b : Int => b = a + 1) ((trailingLoop lastX i k).map Point.x) ∧
      ∀ y ∈ ((trailingLoop lastX i k).map Point.x).head?, y = lastX + (i : Int) := by
  induction k with
  | zero => intro i; simp [trailingLoop]
  | succ k ih =>
    intro i
    obtain ⟨hc, hh⟩ := ih (i + 1)
    refine ⟨?_, by simp [trailingLoop]⟩
    simp only [trailingLoop, List.map_cons]
    refine List.Chain'.cons' hc ?_
    intro y hy
    rw [hh y hy]; push_cast; ring

theorem stepOne_append_trailing (s : List Point) (last : Point) (k : Nat) (h : StepOne s)
    (hlast : s.getLast? = some last) : StepOne (s ++ trailingLoop last.x 1 k) := by
  rw [stepOne_iff_chain] at h ⊢
  rw [List.map_append]
  obtain ⟨hc, hh⟩ := trailingLoop_chain last.x k 1
  refine List.Chain'.append h hc ?_
  intro x hx y hy
  rw [List.getLast?_map, hlast] at hx
  simp only [Option.map_some', Option.mem_def, Option.some.injEq] at hx
  rw [hh y hy, ← hx]; rfl

/-! ## Short inputs and `null` values in the smoothers -/

theorem emaLoop_skip (data : List Point) (period : Nat) (multiplier : JSNum) (k : Nat) :
    ∀ (i : Nat) (emaPrev : Option JSNum), i + k ≤ period →
      emaLoop data period multiplier i k emaPrev = Except.ok [] := by
  induction k with
  | zero => intro i emaPrev _; rfl
  | succ k ih =>
    intro i emaPrev h
    rw [emaLoop, if_pos (by omega)]
    exact ih (i + 1) emaPrev (by omega)

theorem calculateEMA_short (data : List Point) (period : Nat) (h : data.length ≤ period) :
    calculateEMA data period = Except.ok [] :=
  emaLoop_skip data period _ data.length 0 none (by omega)

theorem calculateWMA_short (data : List Point) (period : Nat) (h : data.length ≤ period) :
    calculateWMA data period = Except.ok [] := by
  have : data.length - period = 0 := by omega
  simp only [calculateWMA, this]
  rfl

theorem getPt_map_zeroForNull (data : List Point) (i : Int) :
    getPt (data.map zeroForNull) i = (getPt data i).map zeroForNull := by
  unfold getPt
  split
  · rfl
  · rw [List.getElem?_map]
    cases data[i.toNat]? <;> rfl

theorem wmaSumLoop_zeroForNull (data : List Point) (period i k : Nat) :
    ∀ (j : Nat) (weightedSum : JSNum),
      wmaSumLoop (data.map zeroForNull) period i j k weightedSum
        = wmaSumLoop data period i j k weightedSum := by
  induction k with
  | zero => intro j ws; rfl
  | succ k ih =>
    intro j ws
    simp only [wmaSumLoop, getPt_map_zeroForNull]
    cases getPt data ((i : Int) - (j : Int)) with
    | error e => rfl
    | ok pt => exact ih (j + 1) _

theorem wmaLoop_zeroForNull (data : List Point) (period : Nat) (denominator : JSNum) (k : Nat) :
    ∀ (i : Nat),
      wmaLoop (data.map zeroForNull) period denominator i k
        = wmaLoop data period denominator i k := by
  induction k with
  | zero => intro i; rfl
  | succ k ih =>
    intro i
    simp only [wmaLoop, wmaSumLoop_zeroForNull, getPt_map_zeroForNull, ih]
    cases wmaSumLoop data period i 0 period (JSNum.fin 0) with
    | error e => rfl
    | ok v =>
      cases getPt data (i : Int) with
      | error e => rfl
      | ok pt => rfl

theorem wmaLoop_values_present (data : List Point) (period : Nat) (denominator : JSNum)
    (k : Nat) :
    ∀ (i : Nat) (r : List Point), wmaLoop data period denominator i k = Except.ok r →
      ∀ pt ∈ r, ∃ v, pt.y = some v := by
  induction k with
  | zero =>
    intro i r hr pt hpt
    cases hr
    simp at hpt
  | succ k ih =>
    intro i r hr pt hpt
    simp only [wmaLoop] at hr
    cases hs : wmaSumLoop data period i 0 period (JSNum.fin 0) with
    | error e => rw [hs] at hr; cases hr
    | ok v =>
      cases hg : getPt data (i : Int) with
      | error e => rw [hs, hg] at hr; cases hr
      | ok cur =>
        cases hrest : wmaLoop data period denominator (i + 1) k with
        | error e => rw [hs, hg, hrest] at hr; cases hr
        | ok rest =>
          rw [hs, hg, hrest] at hr
          cases hr
          rcases List.mem_cons.1 hpt with h | h
          · exact ⟨_, by rw [h]⟩
          · exact ih (i + 1) rest hrest pt h

/-! ## Exact arithmetic on finite numbers -/

theorem JSNum.add_fin (a b : ℚ) : (JSNum.fin a).add (JSNum.fin b) = JSNum.fin (a + b) := rfl

theorem JSNum.sub_fin (a b : ℚ) : (JSNum.fin a).sub (JSNum.fin b) = JSNum.fin (a - b) := by
  simp [JSNum.sub, JSNum.neg, JSNum.add, sub_eq_add_neg]

theorem JSNum.mul_fin (a b : ℚ) : (JSNum.fin a).mul (JSNum.fin b) = JSNum.fin (a * b) := rfl

theorem JSNum.div_fin (a b : ℚ) (hb : b ≠ 0) :
    (JSNum.fin a).div (JSNum.fin b) = JSNum.fin (a / b) := by
  simp [JSNum.div, hb]

theorem JSNum.geZero_fin (a : ℚ) : (JSNum.fin a).geZero = decide (0 ≤ a) := rfl

theorem JSNum.eq_fin_of_isFinite (v : JSNum) (h : v.isFinite = true) :
    v = JSNum.fin v.toRat := by
  cases v <;> simp [JSNum.isFinite, JSNum.toRat] at h ⊢

theorem toNumber_eq_valueAt (data : List Point) (hfin : AllFinite data) (i : Nat)
    (h : i < data.length) : toNumber data[i].y = JSNum.fin (valueAt data i) := by
  have := JSNum.eq_fin_of_isFinite _ (hfin data[i] (List.getElem_mem h))
  simp only [valueAt, List.getElem?_eq_getElem h]
  exact this

theorem diff_eq_delta (data : List Point) (hfin : AllFinite data) (i : Nat) (hi : 1 ≤ i)
    (h : i < data.length) :
    (toNumber data[i].y).sub (toNumber (data[i - 1]).y) = JSNum.fin (delta data i) := by
  rw [toNumber_eq_valueAt data hfin i h, toNumber_eq_valueAt data hfin (i - 1) (by omega),
    JSNum.sub_fin]
  rfl

/-! ## The seed of `calculateRSI` -/

theorem seedLoop_finite (data : List Point) (hfin : AllFinite data) (k : Nat) :
    ∀ (i : Nat) (g l : ℚ), 1 ≤ i → i + k ≤ data.length →
      seedLoop data i k (JSNum.fin g) (JSNum.fin l) = Except.ok
        (JSNum.fin (g + ((List.range' i k).map
            (fun i => if 0 < delta data i then delta data i else 0)).sum),
          JSNum.fin (l + ((List.range' i k).map
            (fun i => if delta data i < 0 then |delta data i| else 0)).sum)) := by
  induction k with
  | zero => intro i g l _ _; simp [seedLoop]; rfl
  | succ k ih =>
    intro i g l hi hlen
    have h1 : i < data.length := by omega
    have h2 : i - 1 < data.length := by omega
    simp only [seedLoop, getPt_of_lt data i h1, getPt_pred data i hi,
      getPt_of_lt data (i - 1) h2, bind_ok, diff_eq_delta data hfin i hi h1, JSNum.geZero_fin,
      JSNum.add_fin, JSNum.sub_fin, List.range'_succ, List.map_cons, List.sum_cons]
    by_cases hd : 0 ≤ delta data i
    · rw [if_pos (by simpa using hd), ih (i + 1) _ _ (by omega) (by omega)]
      have e1 : (if delta data i < 0 then |delta data i| else 0) = 0 := if_neg (by linarith)
      have e2 : (if 0 < delta data i then delta data i else 0) = delta data i := by
        split
        · rfl
        · linarith
      rw [e1, e2]
      simp only [add_assoc, zero_add]
    · rw [if_neg (by simpa using hd), ih (i + 1) _ _ (by omega) (by omega)]
      have hd' : delta data i < 0 := by linarith
      have e1 : (if delta data i < 0 then |delta data i| else 0) = -delta data i := by
        rw [if_pos hd', abs_of_neg hd']
      have e2 : (if 0 < delta data i then delta data i else 0) = 0 := if_neg (by linarith)
      rw [e1, e2]
      simp only [add_assoc, zero_add, sub_eq_add_neg]

theorem seedGains_nonneg (data : List Point) (p : Nat) : 0 ≤ seedGains data p := by
  unfold seedGains
  apply List.sum_nonneg
  intro x hx
  obtain ⟨i, -, rfl⟩ := List.mem_map.1 hx
  split
  · linarith
  · exact le_refl 0

theorem seedLosses_nonneg (data : List Point) (p : Nat) : 0 ≤ seedLosses data p := by
  unfold seedLosses
  apply List.sum_nonneg
  intro x hx
  obtain ⟨i, -, rfl⟩ := List.mem_map.1 hx
  split
  · exact abs_nonneg _
  · exact le_refl 0

theorem rsiSeed_finite (data : List Point) (hfin : AllFinite data) (p : Nat) (hp : 1 ≤ p)
    (hlen : p < data.length) :
    rsiSeed data p = Except.ok
      { avgGain := JSNum.fin (seedGains data p / p), avgLoss := JSNum.fin (seedLosses data p / p) } := by
  have hp0 : (p : ℚ) ≠ 0 := by
    have : 0 < p := hp
    exact_mod_cast this.ne'
  have := seedLoop_finite data hfin p 1 0 0 (le_refl 1) (by omega)
  simp only [zero_add] at this
  simp only [rsiSeed, this, bind_ok, seedGains, seedLosses]
  simp only [pure, Except.pure, JSNum.div_fin _ _ hp0]

/-! ## The averages and the emitted values of `calculateRSI` -/

theorem rsiUpdate_finiteNonneg (p : Nat) (hp : 1 ≤ p) (s : RSIState) (d : ℚ)
    (hs : FiniteNonneg s) : FiniteNonneg (rsiUpdate p s (JSNum.fin d)) := by
  obtain ⟨g, l, rfl, hg, hl⟩ := hs
  have hp0 : (p : ℚ) ≠ 0 := by
    have : 0 < p := hp
    exact_mod_cast this.ne'
  have hp1 : (0 : ℚ) ≤ (p : ℚ) - 1 := by
    have : (1 : ℚ) ≤ (p : ℚ) := by exact_mod_cast hp
    linarith
  have hpp : (0 : ℚ) < (p : ℚ) := by
    have : 0 < p := hp
    exact_mod_cast this
  by_cases hd : 0 ≤ d
  · refine ⟨(g * ((p : ℚ) - 1) + d) / p, l * ((p : ℚ) - 1) / p, ?_, ?_, ?_⟩
    · simp [rsiUpdate, JSNum.geZero_fin, hd, JSNum.sub_fin, JSNum.mul_fin, JSNum.add_fin,
        JSNum.div_fin _ _ hp0]
    · exact div_nonneg (add_nonneg (mul_nonneg hg hp1) hd) hpp.le
    · exact div_nonneg (mul_nonneg hl hp1) hpp.le
  · refine ⟨g * ((p : ℚ) - 1) / p, (l * ((p : ℚ) - 1) - d) / p, ?_, ?_, ?_⟩
    · simp [rsiUpdate, JSNum.geZero_fin, hd, JSNum.sub_fin, JSNum.mul_fin,
        JSNum.div_fin _ _ hp0]
    · exact div_nonneg (mul_nonneg hg hp1) hpp.le
    · have : 0 ≤ l * ((p : ℚ) - 1) - d := by
        have := mul_nonneg hl hp1
        linarith
      exact div_nonneg this hpp.le

theorem rsiOf_finite (g l : ℚ) (hg : 0 ≤ g) (hl : 0 < l) :
    rsiOf { avgGain := JSNum.fin g, avgLoss := JSNum.fin l }
      = JSNum.fin (100 - 100 / (1 + g / l)) := by
  have h1 : (1 : ℚ) + g / l ≠ 0 := by
    have : 0 ≤ g / l := div_nonneg hg hl.le
    linarith
  simp only [rsiOf, JSNum.div_fin _ _ hl.ne', JSNum.add_fin, JSNum.div_fin _ _ h1, JSNum.sub_fin]

theorem rsi_value_in_range (g l : ℚ) (hg : 0 ≤ g) (hl : 0 < l) :
    0 ≤ 100 - 100 / (1 + g / l) ∧ 100 - 100 / (1 + g / l) ≤ 100 := by
  have h0 : 0 ≤ g / l := div_nonneg hg hl.le
  have h1 : (0 : ℚ) < 1 + g / l := by linarith
  have h2 : 100 / (1 + g / l) ≤ 100 := by
    rw [div_le_iff₀ h1]
    nlinarith
  have h3 : 0 ≤ 100 / (1 + g / l) := div_nonneg (by norm_num) h1.le
  constructor <;> linarith

theorem loops_agree (data : List Point) (hfin : AllFinite data) (p : Nat) (hp : 1 ≤ p)
    (k : Nat) :
    ∀ (i : Nat) (s : RSIState), 1 ≤ i → i + k ≤ data.length → FiniteNonneg s →
      ∃ ss r, statesLoop data p i k s = Except.ok ss ∧ rsiLoop data p i k s = Except.ok r ∧
        r.map Point.y = ss.map (fun s => some (rsiOf s)) ∧ ∀ s' ∈ ss, FiniteNonneg s' := by
  induction k with
  | zero =>
    intro i s _ _ _
    exact ⟨[], [], rfl, rfl, rfl, by simp⟩
  | succ k ih =>
    intro i s hi hlen hs
    have h1 : i < data.length := by omega
    have h2 : i - 1 < data.length := by omega
    have hs' := rsiUpdate_finiteNonneg p hp s (delta data i) hs
    obtain ⟨ss, r, hss, hr, hy, hinv⟩ :=
      ih (i + 1) (rsiUpdate p s (JSNum.fin (delta data i))) (by omega) (by omega) hs'
    refine ⟨rsiUpdate p s (JSNum.fin (delta data i)) :: ss,
      { x := data[i].x, y := some (rsiOf (rsiUpdate p s (JSNum.fin (delta data i)))) } :: r,
      ?_, ?_, ?_, ?_⟩
    · simp only [statesLoop, getPt_of_lt data i h1, getPt_pred data i hi,
        getPt_of_lt data (i - 1) h2, bind_ok, diff_eq_delta data hfin i hi h1, hss]
      rfl
    · simp only [rsiLoop, getPt_of_lt data i h1, getPt_pred data i hi,
        getPt_of_lt data (i - 1) h2, bind_ok, diff_eq_delta data hfin i hi h1, hr]
      rfl
    · simp only [List.map_cons, hy]
    · intro s' hmem
      rcases List.mem_cons.1 hmem with h | h
      · rw [h]; exact hs'
      · exact hinv s' h

theorem rsi_states_agree (data : List Point) (hfin : AllFinite data) (p : Nat) (hp : 1 ≤ p)
    (hlen : p < data.length) :
    ∃ ss r, rsiStates data p = Except.ok ss ∧ calculateRSI data p = Except.ok r ∧
      r.map Point.y = ss.map (fun s => some (rsiOf s)) ∧ (∀ s' ∈ ss, FiniteNonneg s') ∧
      ss.head? = some { avgGain := JSNum.fin (seedGains data p / p),
                        avgLoss := JSNum.fin (seedLosses data p / p) } := by
  have hseed := rsiSeed_finite data hfin p hp hlen
  have hpp : (0 : ℚ) < (p : ℚ) := by
    have : 0 < p := hp
    exact_mod_cast this
  obtain ⟨s0, hs0def⟩ : ∃ s0 : RSIState, s0
      = RSIState.mk (JSNum.fin (seedGains data p / p)) (JSNum.fin (seedLosses data p / p)) :=
    ⟨_, rfl⟩
  rw [← hs0def] at hseed ⊢
  have hs0 : FiniteNonneg s0 :=
    ⟨_, _, hs0def, div_nonneg (seedGains_nonneg data p) hpp.le,
      div_nonneg (seedLosses_nonneg data p) hpp.le⟩
  obtain ⟨ss, r, hss, hr, hy, hinv⟩ := loops_agree data hfin p hp (data.length - (p + 1)) (p + 1)
    s0 (by omega) (by omega) hs0
  refine ⟨s0 :: ss, { x := data[p].x, y := some (rsiOf s0) } :: r, ?_, ?_, ?_, ?_, rfl⟩
  · simp only [rsiStates, hseed, bind_ok, getPt_of_lt data p hlen, hss]
    rfl
  · simp only [calculateRSI, hseed, bind_ok, getPt_of_lt data p hlen, hr]
    rfl
  · simp only [List.map_cons, hy]
  · intro s' hmem
    rcases List.mem_cons.1 hmem with h | h
    · rw [h]; exact hs0
    · exact hinv s' h

/-! ## Present values, start indices and the cut -/

theorem rsiLoop_values_present (data : List Point) (period k : Nat) :
    ∀ (i : Nat) (s : RSIState) (r : List Point), rsiLoop data period i k s = Except.ok r →
      ∀ pt ∈ r, ∃ v, pt.y = some v := by
  induction k with
  | zero =>
    intro i s r hr pt hpt
    cases hr
    simp at hpt
  | succ k ih =>
    intro i s r hr pt hpt
    simp only [rsiLoop] at hr
    cases hc : getPt data (i : Int) with
    | error e => rw [hc] at hr; cases hr
    | ok cur =>
      cases hp : getPt data ((i : Int) - 1) with
      | error e => rw [hc, hp] at hr; cases hr
      | ok prev =>
        rw [hc, hp] at hr
        simp only [bind_ok] at hr
        cases hrest : rsiLoop data period (i + 1) k
            (rsiUpdate period s ((toNumber cur.y).sub (toNumber prev.y))) with
        | error e => rw [hrest] at hr; cases hr
        | ok rest =>
          rw [hrest] at hr
          cases hr
          rcases List.mem_cons.1 hpt with h | h
          · exact ⟨_, by rw [h]⟩
          · exact ih (i + 1) _ rest hrest pt h

theorem calculateRSI_values_present (data : List Point) (period : Nat) (r : List Point)
    (hr : calculateRSI data period = Except.ok r) : ∀ pt ∈ r, ∃ v, pt.y = some v := by
  intro pt hpt
  simp only [calculateRSI] at hr
  cases hs : rsiSeed data period with
  | error e => rw [hs] at hr; cases hr
  | ok s =>
    cases hg : getPt data (period : Int) with
    | error e => rw [hs, hg] at hr; cases hr
    | ok cur =>
      rw [hs, hg] at hr
      simp only [bind_ok] at hr
      cases hrest : rsiLoop data period (period + 1) (data.length - (period + 1)) s with
      | error e => rw [hrest] at hr; cases hr
      | ok rest =>
        rw [hrest] at hr
        cases hr
        rcases List.mem_cons.1 hpt with h | h
        · exact ⟨_, by rw [h]⟩
        · exact rsiLoop_values_present data period _ _ s rest hrest pt h

theorem emaLoop_values_present (data : List Point) (period : Nat) (multiplier : JSNum)
    (k : Nat) :
    ∀ (i : Nat) (emaPrev : Option JSNum) (r : List Point),
      emaLoop data period multiplier i k emaPrev = Except.ok r →
      ∀ pt ∈ r, ∃ v, pt.y = some v := by
  induction k with
  | zero =>
    intro i emaPrev r hr pt hpt
    cases hr
    simp at hpt
  | succ k ih =>
    intro i emaPrev r hr pt hpt
    rw [emaLoop] at hr
    split at hr
    · exact ih (i + 1) emaPrev r hr pt hpt
    · cases hg : getPt data (i : Int) with
      | error e =>
        cases emaPrev with
        | none =>
          simp only [hg] at hr
          cases hsum : emaSumLoop data i 0 period (JSNum.fin 0) with
          | error e => rw [hsum] at hr; cases hr
          | ok v => rw [hsum] at hr; cases hr
        | some prev => simp only [hg] at hr; cases hr
      | ok cur =>
        cases emaPrev with
        | none =>
          simp only [hg] at hr
          cases hsum : emaSumLoop data i 0 period (JSNum.fin 0) with
          | error e => rw [hsum] at hr; cases hr
          | ok v =>
            rw [hsum] at hr
            simp only [bind_ok, pure_bind_ok] at hr
            cases hrest : emaLoop data period multiplier (i + 1) k
                (some (v.div (JSNum.fin period))) with
            | error e => rw [hrest] at hr; cases hr
            | ok rest =>
              rw [hrest] at hr
              cases hr
              rcases List.mem_cons.1 hpt with h | h
              · exact ⟨_, by rw [h]⟩
              · exact ih (i + 1) _ rest hrest pt h
        | some prev =>
          simp only [hg, bind_ok, pure_bind_ok] at hr
          cases hrest : emaLoop data period multiplier (i + 1) k
              (some ((((toNumber cur.y).sub prev).mul multiplier).add prev)) with
          | error e => rw [hrest] at hr; cases hr
          | ok rest =>
            rw [hrest] at hr
            cases hr
            rcases List.mem_cons.1 hpt with h | h
            · exact ⟨_, by rw [h]⟩
            · exact ih (i + 1) _ rest hrest pt h

theorem calculateEMA_values_present (data : List Point) (period : Nat) (r : List Point)
    (hr : calculateEMA data period = Except.ok r) : ∀ pt ∈ r, ∃ v, pt.y = some v :=
  emaLoop_values_present data period _ _ _ _ r hr

theorem calculateWMA_values_present (data : List Point) (period : Nat) (r : List Point)
    (hr : calculateWMA data period = Except.ok r) : ∀ pt ∈ r, ∃ v, pt.y = some v :=
  wmaLoop_values_present data period _ _ _ r hr

theorem findIdx_padded (pad raw : List Point) (hpad : ∀ pt ∈ pad, pt.y = none)
    (hraw : ∀ pt ∈ raw, ∃ v, pt.y = some v) :
    (pad ++ raw).findIdx (fun item => item.y != none) = pad.length := by
  have h1 : pad.findIdx (fun item => item.y != none) = pad.length :=
    List.findIdx_eq_length_of_false (by intro pt hpt; simp [hpad pt hpt])
  rw [List.findIdx_append, h1, if_neg (lt_irrefl _)]
  cases raw with
  | nil => simp
  | cons pt rest =>
    obtain ⟨v, hv⟩ := hraw pt (List.mem_cons_self _ _)
    have hb : (pt.y != none) = true := by rw [hv]; rfl
    simp [List.findIdx_cons, hb]

theorem findIndex_padded (pad raw : List Point) (hpad : ∀ pt ∈ pad, pt.y = none)
    (hraw : ∀ pt ∈ raw, ∃ v, pt.y = some v) (hne : raw ≠ []) :
    findIndex (pad ++ raw) (fun item => item.y != none) = (pad.length : Int) := by
  have hlt : pad.length < (pad ++ raw).length := by
    have : 0 < raw.length := List.length_pos.2 hne
    simp only [List.length_append]
    omega
  simp only [findIndex, findIdx_padded pad raw hpad hraw, if_pos hlt]

theorem findIndex_all_null (pad : List Point) (hpad : ∀ pt ∈ pad, pt.y = none) :
    findIndex pad (fun item => item.y != none) = -1 := by
  have h1 : pad.findIdx (fun item => item.y != none) = pad.length :=
    List.findIdx_eq_length_of_false (by intro pt hpt; simp [hpad pt hpt])
  simp only [findIndex, h1, lt_irrefl, if_false]

theorem nullAt_values (l : List Point) : ∀ pt ∈ l.map nullAt, pt.y = none := by
  intro pt hpt
  obtain ⟨r, -, rfl⟩ := List.mem_map.1 hpt
  rfl

theorem trailingLoop_eq (lastX : Int) (k : Nat) :
    ∀ i : Nat, trailingLoop lastX i k
      = (List.range' i k).map (fun (j : Nat) => ({ x := lastX + (j : Int), y := none } : Point)) := by
  induction k with
  | zero => intro i; rfl
  | succ k ih =>
    intro i
    simp only [trailingLoop, ih (i + 1), List.range'_succ, List.map_cons]

theorem trailingLoop_eq_trailingPoints (lastX : Int) (n : Nat) :
    trailingLoop lastX 1 n = trailingPoints lastX n :=
  trailingLoop_eq lastX n 1

theorem slice_of_nat (l : List Point) (k : Nat) (h : k ≤ l.length) :
    slice l (k : Int) = l.drop k := by
  have h1 : ¬ ((k : Int) < 0) := by omega
  have h2 : min (k : Int) (l.length : Int) = (k : Int) := by omega
  simp only [slice, if_neg h1, h2, Int.toNat_ofNat]

theorem slice_neg_one (l : List Point) : slice l (-1) = l.drop (l.length - 1) := by
  have h1 : ((-1 : Int) < 0) := by omega
  have h2 : (max ((l.length : Int) + -1) 0).toNat = l.length - 1 := by omega
  simp only [slice, if_pos h1, h2]

theorem overlay_padded (rsi raw padded : List Point) (q : Nat)
    (hx : raw.map Point.x = (rsi.drop q).map Point.x)
    (hp : padStartToMatch rsi raw = Except.ok padded)
    (hv : ∀ pt ∈ raw, ∃ v, pt.y = some v) :
    padded = (rsi.take q).map nullAt ++ raw ∧ raw.length = rsi.length - q ∧
      (q < rsi.length → findIndex padded (fun item => item.y != none) = (q : Int)) ∧
      (rsi.length ≤ q → findIndex padded (fun item => item.y != none) = -1) := by
  have hl : raw.length = rsi.length - q := by
    have := congrArg List.length hx
    simpa using this
  have htake : rsi.take (rsi.length - raw.length) = rsi.take q := by
    by_cases hq : q ≤ rsi.length
    · have : rsi.length - raw.length = q := by omega
      rw [this]
    · have e1 : rsi.length - raw.length = rsi.length := by omega
      rw [e1, List.take_length, List.take_of_length_le (by omega)]
  have hpad : padded = (rsi.take q).map nullAt ++ raw := by
    rw [padStartToMatch_eq, htake] at hp
    cases hp
    rfl
  refine ⟨hpad, hl, ?_, ?_⟩
  · intro hq
    have hne : raw ≠ [] := by
      intro h
      rw [h] at hl
      simp at hl
      omega
    rw [hpad, findIndex_padded _ raw (nullAt_values _) hv hne]
    simp only [List.length_map, List.length_take]
    congr 1
    omega
  · intro hq
    have hnil : raw = [] := List.eq_nil_of_length_eq_zero (by omega)
    rw [hpad, hnil, List.append_nil]
    exact findIndex_all_null _ (nullAt_values _)

theorem alignSeries_long (closePrices : List Point) (h : 60 ≤ closePrices.length) :
    ∃ rsi emaRaw wmaRaw ema wma last,
      calculateRSI closePrices 14 = Except.ok rsi ∧
      calculateEMA rsi 9 = Except.ok emaRaw ∧
      calculateWMA rsi 45 = Except.ok wmaRaw ∧
      padStartToMatch rsi emaRaw = Except.ok ema ∧
      padStartToMatch rsi wmaRaw = Except.ok wma ∧
      rsi.map Point.x = (closePrices.drop 14).map Point.x ∧
      ema.map Point.x = rsi.map Point.x ∧
      wma.map Point.x = rsi.map Point.x ∧
      ema = (rsi.take 9).map nullAt ++ emaRaw ∧
      wma = (rsi.take 45).map nullAt ++ wmaRaw ∧
      emaRaw.length = rsi.length - 9 ∧
      wmaRaw.length = rsi.length - 45 ∧
      rsi.getLast? = some last ∧
      findIndex ema (fun item => item.y != none) = 9 ∧
      findIndex wma (fun item => item.y != none) = 45 ∧
      alignSeries closePrices = Except.ok
        { paddedRSIData := rsi.drop 45 ++ trailingPoints last.x 50
          paddedEMAData := ema.drop 45 ++ trailingPoints last.x 50
          paddedWMAData := wma.drop 45 ++ trailingPoints last.x 50 } := by
  obtain ⟨rsi, emaRaw, wmaRaw, ema, wma, last, hrsi, hema, hwma, hpe, hpw, hx, hex, hwx, hlast,
    hout⟩ := alignSeries_ok closePrices (by omega)
  have hlen : rsi.length = closePrices.length - 14 := by
    have := congrArg List.length hx
    simpa using this
  obtain ⟨er, her, herx⟩ := calculateEMA_ok rsi 9
  obtain ⟨wr, hwr, hwrx⟩ := calculateWMA_ok rsi 45
  rw [hema] at her
  rw [hwma] at hwr
  cases her
  cases hwr
  obtain ⟨he1, he2, he3, -⟩ := overlay_padded rsi emaRaw ema 9 herx hpe
    (calculateEMA_values_present rsi 9 emaRaw hema)
  obtain ⟨hw1, hw2, hw3, -⟩ := overlay_padded rsi wmaRaw wma 45 hwrx hpw
    (calculateWMA_values_present rsi 45 wmaRaw hwma)
  have hes := he3 (by omega)
  have hws := hw3 (by omega)
  have hle : ema.length = rsi.length := by
    have := congrArg List.length hex
    simpa using this
  have hlw : wma.length = rsi.length := by
    have := congrArg List.length hwx
    simpa using this
  refine ⟨rsi, emaRaw, wmaRaw, ema, wma, last, hrsi, hema, hwma, hpe, hpw, hx, hex, hwx, he1, hw1,
    he2, hw2, hlast, hes, hws, ?_⟩
  rw [hout, hes, hws, trailingLoop_eq_trailingPoints]
  have hmax : max ((9 : Nat) : Int) ((45 : Nat) : Int) = ((45 : Nat) : Int) := by decide
  rw [hmax, slice_of_nat _ 45 (by simp; omega), slice_of_nat _ 45 (by simp; omega),
    slice_of_nat _ 45 (by simp; omega),
    List.drop_append_of_le_length (by omega), List.drop_append_of_le_length (by omega),
    List.drop_append_of_le_length (by omega)]

/-! ## `calculateRSI` as the Wilder fold -/

theorem rsiUpdate_ofRat (p : Nat) (hp : 1 ≤ p) (s : ℚ × ℚ) (d : ℚ) :
    rsiUpdate p (RSIState.ofRat s) (JSNum.fin d) = RSIState.ofRat (wilderStep p s d) := by
  have hp0 : (p : ℚ) ≠ 0 := by
    have : 0 < p := hp
    exact_mod_cast this.ne'
  by_cases hd : 0 ≤ d
  · simp [rsiUpdate, RSIState.ofRat, wilderStep, JSNum.geZero_fin, hd, JSNum.sub_fin,
      JSNum.mul_fin, JSNum.add_fin, JSNum.div_fin _ _ hp0]
  · have hneg : d < 0 := lt_of_not_le hd
    simp [rsiUpdate, RSIState.ofRat, wilderStep, JSNum.geZero_fin, hd, JSNum.sub_fin,
      JSNum.mul_fin, JSNum.div_fin _ _ hp0, abs_of_neg hneg, sub_eq_add_neg]

theorem statesLoop_wilder (data : List Point) (hfin : AllFinite data) (p : Nat) (hp : 1 ≤ p)
    (k : Nat) :
    ∀ j : Nat, p + 1 + j + k ≤ data.length →
      statesLoop data p (p + 1 + j) k (RSIState.ofRat (wilder data p j))
        = Except.ok ((List.range' (j + 1) k).map (fun m => RSIState.ofRat (wilder data p m))) := by
  induction k with
  | zero => intro j _; rfl
  | succ k ih =>
    intro j hlen
    have h1 : p + 1 + j < data.length := by omega
    have h2 : p + 1 + j - 1 < data.length := by omega
    have hstep : rsiUpdate p (RSIState.ofRat (wilder data p j)) (JSNum.fin (delta data (p + 1 + j)))
        = RSIState.ofRat (wilder data p (j + 1)) := by
      rw [rsiUpdate_ofRat p hp]
      have e : p + 1 + j = p + (j + 1) := by omega
      rw [e]
      rfl
    have hih := ih (j + 1) (by omega)
    have e2 : p + 1 + (j + 1) = p + 1 + j + 1 := by omega
    rw [e2] at hih
    simp only [statesLoop, getPt_of_lt data _ h1, getPt_pred data _ (by omega : 1 ≤ p + 1 + j),
      getPt_of_lt data _ h2, bind_ok, diff_eq_delta data hfin _ (by omega) h1, hstep, hih,
      List.range'_succ, List.map_cons]
    rfl

theorem rsiStates_wilder (data : List Point) (hfin : AllFinite data) (p : Nat) (hp : 1 ≤ p)
    (hlen : p < data.length) :
    rsiStates data p = Except.ok
      ((List.range (data.length - p)).map (fun m => RSIState.ofRat (wilder data p m))) := by
  have hseed : rsiSeed data p = Except.ok (RSIState.ofRat (wilder data p 0)) :=
    rsiSeed_finite data hfin p hp hlen
  have hloop := statesLoop_wilder data hfin p hp (data.length - (p + 1)) 0 (by omega)
  have e : data.length - p = (data.length - (p + 1)) + 1 := by omega
  rw [Nat.add_zero] at hloop
  simp only [rsiStates, hseed, bind_ok, getPt_of_lt data p hlen, hloop]
  rw [e, List.range_eq_range', List.range'_succ, List.map_cons]
  rfl

theorem wilderStep_nonneg (p : Nat) (hp : 1 ≤ p) (s : ℚ × ℚ) (d : ℚ) (h1 : 0 ≤ s.1)
    (h2 : 0 ≤ s.2) : 0 ≤ (wilderStep p s d).1 ∧ 0 ≤ (wilderStep p s d).2 := by
  have hp1 : (0 : ℚ) ≤ (p : ℚ) - 1 := by
    have : (1 : ℚ) ≤ (p : ℚ) := by exact_mod_cast hp
    linarith
  have hpp : (0 : ℚ) ≤ (p : ℚ) := by positivity
  unfold wilderStep
  split
  · exact ⟨div_nonneg (add_nonneg (mul_nonneg h1 hp1) (by assumption)) hpp,
      div_nonneg (mul_nonneg h2 hp1) hpp⟩
  · exact ⟨div_nonneg (mul_nonneg h1 hp1) hpp,
      div_nonneg (add_nonneg (mul_nonneg h2 hp1) (abs_nonneg d)) hpp⟩

theorem wilder_nonneg (data : List Point) (p : Nat) (hp : 1 ≤ p) (k : Nat) :
    0 ≤ (wilder data p k).1 ∧ 0 ≤ (wilder data p k).2 := by
  have hpp : (0 : ℚ) ≤ (p : ℚ) := by positivity
  induction k with
  | zero =>
    exact ⟨div_nonneg (seedGains_nonneg data p) hpp, div_nonneg (seedLosses_nonneg data p) hpp⟩
  | succ k ih => exact wilderStep_nonneg p hp _ _ ih.1 ih.2

theorem rsi_values_wilder (data : List Point) (hfin : AllFinite data) (p : Nat) (hp : 1 ≤ p)
    (hlen : p < data.length) :
    ∃ r, calculateRSI data p = Except.ok r ∧
      r.map Point.y = (List.range (data.length - p)).map
        (fun m => some (rsiOf (RSIState.ofRat (wilder data p m)))) := by
  obtain ⟨ss, r, hss, hr, hy, -, -⟩ := rsi_states_agree data hfin p hp hlen
  rw [rsiStates_wilder data hfin p hp hlen] at hss
  cases hss
  refine ⟨r, hr, ?_⟩
  rw [hy, List.map_map]
  rfl
theorem list_sum_eq_zero_iff (l : List ℚ) (h : ∀ x ∈ l, 0 ≤ x) :
    l.sum = 0 ↔ ∀ x ∈ l, x = 0 := by
  induction l with
  | nil => simp
  | cons a l ih =>
    have ha : 0 ≤ a := h a (List.mem_cons_self _ _)
    have hl : ∀ x ∈ l, 0 ≤ x := fun x hx => h x (List.mem_cons_of_mem _ hx)
    have hs : 0 ≤ l.sum := List.sum_nonneg hl
    rw [List.sum_cons]
    constructor
    · intro hsum x hx
      have ha0 : a = 0 := by linarith
      have hl0 : l.sum = 0 := by linarith
      rcases List.mem_cons.1 hx with rfl | hx'
      · exact ha0
      · exact (ih hl).1 hl0 x hx'
    · intro hall
      have ha0 : a = 0 := hall a (List.mem_cons_self _ _)
      have hl0 : l.sum = 0 := (ih hl).2 (fun x hx => hall x (List.mem_cons_of_mem _ hx))
      rw [ha0, hl0, add_zero]

theorem seedLosses_eq_zero_iff (data : List Point) (p : Nat) :
    seedLosses data p = 0 ↔ ∀ i, 1 ≤ i → i ≤ p → 0 ≤ delta data i := by
  unfold seedLosses
  rw [list_sum_eq_zero_iff]
  · constructor
    · intro h i h1 hi
      have := h _ (List.mem_map.2 ⟨i, List.mem_range'_1.2 ⟨h1, by omega⟩, rfl⟩)
      by_contra hneg
      have hlt : delta data i < 0 := lt_of_not_le hneg
      rw [if_pos hlt] at this
      have := abs_eq_zero.1 this
      linarith
    · intro h x hx
      obtain ⟨i, hi, rfl⟩ := List.mem_map.1 hx
      obtain ⟨h1, h2⟩ := List.mem_range'_1.1 hi
      exact if_neg (not_lt.2 (h i h1 (by omega)))
  · intro x hx
    obtain ⟨i, -, rfl⟩ := List.mem_map.1 hx
    split
    · exact abs_nonneg _
    · exact le_refl 0

theorem wilder_loss_eq_zero_iff (data : List Point) (p : Nat) (hp : 2 ≤ p) (k : Nat) :
    (wilder data p k).2 = 0 ↔ ∀ i, 1 ≤ i → i ≤ p + k → 0 ≤ delta data i := by
  have hpp : (0 : ℚ) < (p : ℚ) := by
    have : 0 < p := by omega
    exact_mod_cast this
  have hp1 : (0 : ℚ) < (p : ℚ) - 1 := by
    have : (2 : ℚ) ≤ (p : ℚ) := by exact_mod_cast hp
    linarith
  induction k with
  | zero =>
    show seedLosses data p / p = 0 ↔ _
    rw [div_eq_zero_iff, seedLosses_eq_zero_iff]
    simp [hpp.ne']
  | succ k ih =>
    have hnn := (wilder_nonneg data p (by omega) k).2
    show (wilderStep p (wilder data p k) (delta data (p + (k + 1)))).2 = 0 ↔ _
    unfold wilderStep
    by_cases hd : 0 ≤ delta data (p + (k + 1))
    · rw [if_pos hd]
      simp only
      rw [div_eq_zero_iff, mul_eq_zero]
      constructor
      · intro h i h1 hi
        have hl0 : (wilder data p k).2 = 0 := by
          rcases h with (h | h) | h
          · exact h
          · linarith
          · linarith
        by_cases hik : i ≤ p + k
        · exact ih.1 hl0 i h1 hik
        · have : i = p + (k + 1) := by omega
          rw [this]; exact hd
      · intro h
        exact Or.inl (Or.inl (ih.2 (fun i h1 hi => h i h1 (by omega))))
    · rw [if_neg hd]
      simp only
      have hneg : delta data (p + (k + 1)) < 0 := lt_of_not_le hd
      have habs : 0 < |delta data (p + (k + 1))| := abs_pos.2 hneg.ne
      constructor
      · intro h
        exfalso
        rw [div_eq_zero_iff] at h
        have := mul_nonneg hnn hp1.le
        rcases h with h | h
        · linarith
        · linarith
      · intro h
        exact absurd (h (p + (k + 1)) (by omega) (by omega)) hd
/-! ## `calculateEMA` and `calculateWMA` on finite values -/

theorem emaSumLoop_finite (data : List Point) (hfin : AllFinite data) (i k : Nat)
    (hi : i < data.length) :
    ∀ (j : Nat) (s : ℚ), j + k ≤ i + 1 →
      emaSumLoop data i j k (JSNum.fin s) = Except.ok
        (JSNum.fin (s + ((List.range' j k).map (fun j' => valueAt data (i - j'))).sum)) := by
  induction k with
  | zero => intro j s _; simp [emaSumLoop]; rfl
  | succ k ih =>
    intro j s hj
    have h1 : i - j < data.length := by omega
    simp only [emaSumLoop, getPt_sub data i j (by omega), getPt_of_lt data (i - j) h1, bind_ok,
      toNumber_eq_valueAt data hfin (i - j) h1, JSNum.add_fin, ih (j + 1) _ (by omega),
      List.range'_succ, List.map_cons, List.sum_cons, add_assoc]

theorem sum_window_reindex (f : Nat → ℚ) (q : Nat) :
    ((List.range' 0 q).map (fun j => f (q - j))).sum = ((List.range' 1 q).map f).sum := by
  have h := List.reverse_range' 1 q
  have hs : ((List.range' 1 q).map f).sum = (((List.range' 1 q).reverse).map f).sum := by
    rw [List.map_reverse, List.sum_reverse]
  rw [hs, h, List.map_map, List.range_eq_range']
  congr 1
  apply List.map_congr_left
  intro j _
  simp only [Function.comp]
  congr 1
  omega

theorem ema_multiplier (q : Nat) :
    (JSNum.fin 2).div ((JSNum.fin q).add (JSNum.fin 1)) = JSNum.fin (2 / ((q : ℚ) + 1)) := by
  have h : (q : ℚ) + 1 ≠ 0 := by positivity
  rw [JSNum.add_fin, JSNum.div_fin _ _ h]

theorem emaLoop_tail (data : List Point) (hfin : AllFinite data) (q : Nat) (k : Nat) :
    ∀ m : Nat, q + (m + 1) + k ≤ data.length →
      ∃ r, emaLoop data q (JSNum.fin (2 / ((q : ℚ) + 1))) (q + (m + 1)) k
          (some (JSNum.fin (emaRef data q m))) = Except.ok r ∧
        r.map Point.y = (List.range' (m + 1) k).map (fun j => some (JSNum.fin (emaRef data q j))) := by
  induction k with
  | zero => intro m _; exact ⟨[], rfl, rfl⟩
  | succ k ih =>
    intro m hlen
    have h1 : q + (m + 1) < data.length := by omega
    obtain ⟨r, hr, hy⟩ := ih (m + 1) (by omega)
    have e : q + (m + 1 + 1) = q + (m + 1) + 1 := by omega
    rw [e] at hr
    refine ⟨{ x := data[q + (m + 1)].x, y := some (JSNum.fin (emaRef data q (m + 1))) } :: r,
      ?_, ?_⟩
    · rw [emaLoop, if_neg (by omega)]
      simp only [bind_ok, pure_bind_ok, getPt_of_lt data _ h1,
        toNumber_eq_valueAt data hfin _ h1, JSNum.sub_fin, JSNum.mul_fin, JSNum.add_fin]
      have hv : JSNum.fin ((valueAt data (q + (m + 1)) - emaRef data q m) * (2 / ((q : ℚ) + 1))
          + emaRef data q m) = JSNum.fin (emaRef data q (m + 1)) := rfl
      rw [hv, hr]
      rfl
    · simp only [List.map_cons, hy, List.range'_succ]

theorem emaLoop_from_start (data : List Point) (hfin : AllFinite data) (q : Nat) (hq : 1 ≤ q)
    (hlen : q < data.length) (d : Nat) :
    ∀ i k : Nat, i + d = q → i + k = data.length →
      ∃ r, emaLoop data q (JSNum.fin (2 / ((q : ℚ) + 1))) i k none = Except.ok r ∧
        r.map Point.y
          = (List.range (data.length - q)).map (fun j => some (JSNum.fin (emaRef data q j))) := by
  induction d with
  | zero =>
    intro i k hi hk
    have hiq : i = q := by omega
    subst hiq
    obtain ⟨k', rfl⟩ : ∃ k', k = k' + 1 := ⟨k - 1, by omega⟩
    have hq0 : (i : ℚ) ≠ 0 := by
      have : 0 < i := hq
      exact_mod_cast this.ne'
    have hsum := emaSumLoop_finite data hfin i i hlen 0 0 (by omega)
    rw [zero_add, sum_window_reindex (valueAt data) i] at hsum
    obtain ⟨r, hr, hy⟩ := emaLoop_tail data hfin i k' 0 (by omega)
    have hseed : JSNum.fin (((List.range' 1 i).map (valueAt data)).sum / i)
        = JSNum.fin (emaRef data i 0) := rfl
    refine ⟨{ x := data[i].x, y := some (JSNum.fin (emaRef data i 0)) } :: r, ?_, ?_⟩
    · rw [emaLoop, if_neg (lt_irrefl _)]
      simp only [hsum, bind_ok, pure_bind_ok, JSNum.div_fin _ _ hq0, getPt_of_lt data i hlen,
        hseed]
      rw [hr]
      rfl
    · have e : data.length - i = k' + 1 := by omega
      rw [e, List.range_eq_range', List.range'_succ]
      simp only [List.map_cons, hy]
  | succ d ih =>
    intro i k hi hk
    obtain ⟨k', rfl⟩ : ∃ k', k = k' + 1 := ⟨k - 1, by omega⟩
    obtain ⟨r, hr, hy⟩ := ih (i + 1) k' (by omega) (by omega)
    refine ⟨r, ?_, hy⟩
    rw [emaLoop, if_pos (by omega), hr]

theorem calculateEMA_values (data : List Point) (hfin : AllFinite data) (q : Nat) (hq : 1 ≤ q) :
    ∃ r, calculateEMA data q = Except.ok r ∧
      r.map Point.y
        = (List.range (data.length - q)).map (fun j => some (JSNum.fin (emaRef data q j))) := by
  by_cases hlen : q < data.length
  · have := emaLoop_from_start data hfin q hq hlen q 0 data.length (by omega) (by omega)
    simpa only [calculateEMA, ema_multiplier] using this
  · refine ⟨[], calculateEMA_short data q (by omega), ?_⟩
    have : data.length - q = 0 := by omega
    rw [this]
    rfl
theorem wmaSumLoop_finite (data : List Point) (hfin : AllFinite data) (q i k : Nat)
    (hi : i < data.length) :
    ∀ (j : Nat) (s : ℚ), j + k ≤ i + 1 →
      wmaSumLoop data q i j k (JSNum.fin s) = Except.ok
        (JSNum.fin (s + ((List.range' j k).map
          (fun j' => valueAt data (i - j') * wmaWeight q j')).sum)) := by
  induction k with
  | zero => intro j s _; simp [wmaSumLoop]; rfl
  | succ k ih =>
    intro j s hj
    have h1 : i - j < data.length := by omega
    simp only [wmaSumLoop, getPt_sub data i j (by omega), getPt_of_lt data (i - j) h1, bind_ok,
      toNumber_eq_valueAt data hfin (i - j) h1, JSNum.add_fin, JSNum.sub_fin, JSNum.mul_fin,
      ih (j + 1) _ (by omega), List.range'_succ, List.map_cons, List.sum_cons, add_assoc,
      wmaWeight]

theorem wma_denominator (q : Nat) :
    ((JSNum.fin q).mul ((JSNum.fin q).add (JSNum.fin 1))).div (JSNum.fin 2)
      = JSNum.fin ((q : ℚ) * ((q : ℚ) + 1) / 2) := by
  rw [JSNum.add_fin, JSNum.mul_fin, JSNum.div_fin _ _ (by norm_num)]

theorem wmaLoop_values (data : List Point) (hfin : AllFinite data) (q : Nat) (hq : 1 ≤ q)
    (k : Nat) :
    ∀ i : Nat, q ≤ i → i + k ≤ data.length →
      ∃ r, wmaLoop data q (JSNum.fin ((q : ℚ) * ((q : ℚ) + 1) / 2)) i k = Except.ok r ∧
        r.map Point.y = (List.range' i k).map (fun i' => some (JSNum.fin (wmaRef data q i'))) := by
  have hden : (q : ℚ) * ((q : ℚ) + 1) / 2 ≠ 0 := by
    have : (0 : ℚ) < (q : ℚ) := by
      have : 0 < q := hq
      exact_mod_cast this
    positivity
  induction k with
  | zero => intro i _ _; exact ⟨[], rfl, rfl⟩
  | succ k ih =>
    intro i hqi hlen
    have h1 : i < data.length := by omega
    have hsum := wmaSumLoop_finite data hfin q i q h1 0 0 (by omega)
    rw [zero_add, ← List.range_eq_range'] at hsum
    obtain ⟨r, hr, hy⟩ := ih (i + 1) (by omega) (by omega)
    refine ⟨{ x := data[i].x, y := some (JSNum.fin (wmaRef data q i)) } :: r, ?_, ?_⟩
    · simp only [wmaLoop, hsum, bind_ok, getPt_of_lt data i h1, JSNum.div_fin _ _ hden, hr]
      rfl
    · simp only [List.map_cons, hy, List.range'_succ]

theorem calculateWMA_values (data : List Point) (hfin : AllFinite data) (q : Nat) (hq : 1 ≤ q) :
    ∃ r, calculateWMA data q = Except.ok r ∧
      r.map Point.y = (List.range' q (data.length - q)).map
        (fun i => some (JSNum.fin (wmaRef data q i))) := by
  by_cases hlen : q ≤ data.length
  · have := wmaLoop_values data hfin q hq (data.length - q) q (le_refl _) (by omega)
    simpa only [calculateWMA, wma_denominator] using this
  · refine ⟨[], calculateWMA_short data q (by omega), ?_⟩
    have : data.length - q = 0 := by omega
    rw [this]
    rfl

theorem sum_descending (c : ℚ) (n : Nat) :
    ((List.range n).map (fun (j : Nat) => c - (j : ℚ))).sum = n * c - n * ((n : ℚ) - 1) / 2 := by
  induction n with
  | zero => simp
  | succ n ih =>
    rw [List.range_succ, List.map_append, List.sum_append, ih]
    simp only [List.map_cons, List.map_nil, List.sum_cons, List.sum_nil]
    push_cast
    ring

theorem wmaWeight_sum (q : Nat) :
    ((List.range q).map (wmaWeight q)).sum = (q : ℚ) * ((q : ℚ) + 1) / 2 := by
  have := sum_descending (q : ℚ) q
  unfold wmaWeight
  rw [this]
  ring

/-! ## Values of an interval stay in the interval -/

theorem valuesIn_allFinite (data : List Point) (lo hi : ℚ) (h : ValuesIn data lo hi) :
    AllFinite data := fun pt hpt => (h pt hpt).1

theorem valueAt_mem (data : List Point) (lo hi : ℚ) (h : ValuesIn data lo hi) (i : Nat)
    (hi' : i < data.length) : lo ≤ valueAt data i ∧ valueAt data i ≤ hi := by
  have := h data[i] (List.getElem_mem hi')
  simp only [valueAt, List.getElem?_eq_getElem hi']
  exact this.2

theorem weighted_sum_bounds (f w : Nat → ℚ) (lo hi : ℚ) (l : List Nat)
    (h : ∀ j ∈ l, 0 ≤ w j ∧ lo ≤ f j ∧ f j ≤ hi) :
    lo * (l.map w).sum ≤ (l.map (fun j => f j * w j)).sum ∧
      (l.map (fun j => f j * w j)).sum ≤ hi * (l.map w).sum := by
  induction l with
  | nil => simp
  | cons a l ih =>
    obtain ⟨hw, hlo, hhi⟩ := h a (List.mem_cons_self _ _)
    obtain ⟨h1, h2⟩ := ih (fun j hj => h j (List.mem_cons_of_mem _ hj))
    simp only [List.map_cons, List.sum_cons]
    constructor
    · nlinarith [mul_le_mul_of_nonneg_right hlo hw]
    · nlinarith [mul_le_mul_of_nonneg_right hhi hw]

theorem emaRef_mem (data : List Point) (lo hi : ℚ) (h : ValuesIn data lo hi) (q : Nat)
    (hq : 1 ≤ q) :
    ∀ m : Nat, q + m < data.length → lo ≤ emaRef data q m ∧ emaRef data q m ≤ hi := by
  have hqpos : (0 : ℚ) < (q : ℚ) := by
    have : 0 < q := hq
    exact_mod_cast this
  intro m
  induction m with
  | zero =>
    intro hlen
    have hb := weighted_sum_bounds (valueAt data) (fun _ => 1) lo hi (List.range' 1 q)
      (by
        intro j hj
        obtain ⟨h1, h2⟩ := List.mem_range'_1.1 hj
        exact ⟨by norm_num, valueAt_mem data lo hi h j (by omega)⟩)
    have hone : ((List.range' 1 q).map (fun _ => (1 : ℚ))).sum = q := by
      simp [List.map_const']
    simp only [mul_one, hone] at hb
    show lo ≤ ((List.range' 1 q).map (valueAt data)).sum / q ∧
      ((List.range' 1 q).map (valueAt data)).sum / q ≤ hi
    rw [le_div_iff₀ hqpos, div_le_iff₀ hqpos]
    exact hb
  | succ m ih =>
    intro hlen
    obtain ⟨h1, h2⟩ := ih (by omega)
    obtain ⟨v1, v2⟩ := valueAt_mem data lo hi h (q + (m + 1)) hlen
    have hm0 : (0 : ℚ) < 2 / ((q : ℚ) + 1) := by positivity
    have hm1 : 2 / ((q : ℚ) + 1) ≤ 1 := by
      rw [div_le_one (by positivity)]
      have : (1 : ℚ) ≤ (q : ℚ) := by exact_mod_cast hq
      linarith
    show lo ≤ (valueAt data (q + (m + 1)) - emaRef data q m) * (2 / ((q : ℚ) + 1))
        + emaRef data q m ∧
      (valueAt data (q + (m + 1)) - emaRef data q m) * (2 / ((q : ℚ) + 1))
        + emaRef data q m ≤ hi
    generalize 2 / ((q : ℚ) + 1) = c at hm0 hm1
    generalize emaRef data q m = e at h1 h2
    generalize valueAt data (q + (m + 1)) = v at v1 v2
    constructor
    · nlinarith [mul_nonneg hm0.le (sub_nonneg.2 v1), mul_nonneg (sub_nonneg.2 hm1) (sub_nonneg.2 h1)]
    · nlinarith [mul_nonneg hm0.le (sub_nonneg.2 v2), mul_nonneg (sub_nonneg.2 hm1) (sub_nonneg.2 h2)]

theorem wmaRef_mem (data : List Point) (lo hi : ℚ) (h : ValuesIn data lo hi) (q : Nat)
    (hq : 1 ≤ q) (i : Nat) (hqi : q ≤ i) (hi' : i < data.length) :
    lo ≤ wmaRef data q i ∧ wmaRef data q i ≤ hi := by
  have hqpos : (0 : ℚ) < (q : ℚ) := by
    have : 0 < q := hq
    exact_mod_cast this
  have hW : (0 : ℚ) < (q : ℚ) * ((q : ℚ) + 1) / 2 := by positivity
  have hb := weighted_sum_bounds (fun j => valueAt data (i - j)) (wmaWeight q) lo hi
    (List.range q)
    (by
      intro j hj
      have hj' : j < q := List.mem_range.1 hj
      refine ⟨?_, valueAt_mem data lo hi h (i - j) (by omega)⟩
      unfold wmaWeight
      have : (j : ℚ) ≤ (q : ℚ) := by exact_mod_cast hj'.le
      linarith)
  rw [wmaWeight_sum] at hb
  unfold wmaRef
  rw [le_div_iff₀ hW, div_le_iff₀ hW]
  exact hb

/-! ## Claims -/

/-- Claim C1: for every input series whose length exceeds the RSI period 14, the
three series produced by the alignment block of `renderRSIChart` (EMA period 9,
WMA period 45, 50 trailing points) have the same length, and at every index the
three points have the same position.  Contiguity of the input is not needed. -/
theorem alignSeries_same_length_and_positions (closePrices : List Point)
    (h : 14 < closePrices.length) :
    ∃ out, alignSeries closePrices = Except.ok out ∧
      out.paddedRSIData.length = out.paddedEMAData.length ∧
      out.paddedEMAData.length = out.paddedWMAData.length ∧
      ∀ (i : Nat) (h₁ : i < out.paddedRSIData.length) (h₂ : i < out.paddedEMAData.length)
        (h₃ : i < out.paddedWMAData.length),
        out.paddedRSIData[i].x = out.paddedEMAData[i].x ∧
        out.paddedEMAData[i].x = out.paddedWMAData[i].x := by
  obtain ⟨rsi, emaRaw, wmaRaw, ema, wma, last, -, -, -, -, -, -, hex, hwx, -, hout⟩ :=
    alignSeries_ok closePrices h
  refine ⟨_, hout, ?_⟩
  generalize max (findIndex ema (fun item => item.y != none))
    (findIndex wma (fun item => item.y != none)) = s
  have e1 : (slice (rsi ++ trailingLoop last.x 1 50) s).map Point.x
      = (slice (ema ++ trailingLoop last.x 1 50) s).map Point.x :=
    slice_positions _ _ s (by rw [List.map_append, List.map_append, hex])
  have e2 : (slice (ema ++ trailingLoop last.x 1 50) s).map Point.x
      = (slice (wma ++ trailingLoop last.x 1 50) s).map Point.x :=
    slice_positions _ _ s (by rw [List.map_append, List.map_append, hex, hwx])
  refine ⟨?_, ?_, ?_⟩
  · simpa using congrArg List.length e1
  · simpa using congrArg List.length e2
  · intro i h₁ h₂ h₃
    constructor
    · have := List.getElem_of_eq e1 (by simpa using h₁)
      simpa using this
    · have := List.getElem_of_eq e2 (by simpa using h₂)
      simpa using this

/-- Witness of claim C1: the 20-point scenario. -/
theorem alignSeries_same_length_and_positions_witness :
    14 < scenario20.length ∧
    ∃ out, alignSeries scenario20 = Except.ok out ∧
      out.paddedRSIData.length = out.paddedEMAData.length ∧
      out.paddedEMAData.length = out.paddedWMAData.length ∧
      ∀ (i : Nat) (h₁ : i < out.paddedRSIData.length) (h₂ : i < out.paddedEMAData.length)
        (h₃ : i < out.paddedWMAData.length),
        out.paddedRSIData[i].x = out.paddedEMAData[i].x ∧
        out.paddedEMAData[i].x = out.paddedWMAData[i].x :=
  ⟨by decide, alignSeries_same_length_and_positions scenario20 (by decide)⟩

/-- Claim C2: for every period `p >= 1` and every series of length `n > p`,
`calculateRSI(data, p)` returns exactly `n - p` points and its `k`-th point has
the position of `data[p + k]`. -/
theorem calculateRSI_length_and_positions (data : List Point) (p : Nat) (hp : 1 ≤ p)
    (hlen : p < data.length) :
    ∃ r, calculateRSI data p = Except.ok r ∧ r.length = data.length - p ∧
      ∀ (k : Nat) (hk : k < r.length) (hd : p + k < data.length), r[k].x = data[p + k].x := by
  obtain ⟨r, hr, hx⟩ := calculateRSI_ok data p hlen
  have hl : r.length = data.length - p := by
    have := congrArg List.length hx
    simpa using this
  refine ⟨r, hr, hl, ?_⟩
  intro k hk hd
  have := List.getElem_of_eq hx (by simpa using hk)
  simpa using this

/-- Witness of claim C2: 20 points with `p = 14` give 6 points, the first at the
position of `data[14]`; 15 points with `p = 14` give 1 point. -/
theorem calculateRSI_length_and_positions_witness :
    (1 ≤ 14 ∧ 14 < scenario20.length) ∧
    (∃ r, calculateRSI scenario20 14 = Except.ok r ∧ r.length = scenario20.length - 14 ∧
      ∀ (k : Nat) (hk : k < r.length) (hd : 14 + k < scenario20.length),
        r[k].x = scenario20[14 + k].x) ∧
    (calculateRSI scenario20 14).map List.length = Except.ok 6 ∧
    (calculateRSI scenario15 14).map List.length = Except.ok 1 :=
  ⟨by decide, calculateRSI_length_and_positions scenario20 14 (by decide) (by decide),
    by decide!, by decide!⟩

/-- Claim C3: in exact arithmetic, for every period `p >= 1` and every series of
length `> p` with finite values for which the average loss is non-zero at every
step, every value emitted by `calculateRSI` lies in `[0, 100]`. -/
theorem calculateRSI_values_in_range (data : List Point) (p : Nat) (hp : 1 ≤ p)
    (hlen : p < data.length) (hfin : AllFinite data) (hnd : NonDegenerate data p) :
    ∃ r, calculateRSI data p = Except.ok r ∧
      ∀ pt ∈ r, ∃ v : ℚ, pt.y = some (JSNum.fin v) ∧ 0 ≤ v ∧ v ≤ 100 := by
  obtain ⟨ss, r, hss, hr, hy, hinv, -⟩ := rsi_states_agree data hfin p hp hlen
  unfold NonDegenerate at hnd
  rw [hss] at hnd
  refine ⟨r, hr, ?_⟩
  intro pt hpt
  have hmem : pt.y ∈ r.map Point.y := List.mem_map.2 ⟨pt, hpt, rfl⟩
  rw [hy] at hmem
  obtain ⟨s, hs, hsy⟩ := List.mem_map.1 hmem
  obtain ⟨g, l, rfl, hg, hl⟩ := hinv s hs
  have hl0 : l ≠ 0 := by
    intro h0
    exact hnd _ hs (by rw [h0])
  have hlpos : 0 < l := lt_of_le_of_ne hl (Ne.symm hl0)
  refine ⟨100 - 100 / (1 + g / l), ?_, rsi_value_in_range g l hg hlpos⟩
  rw [← hsy, rsiOf_finite g l hg hlpos]

/-- Witness of claim C3: the 20-point scenario with `p = 14`. -/
theorem calculateRSI_values_in_range_witness :
    (1 ≤ 14 ∧ 14 < scenario20.length ∧ AllFinite scenario20 ∧ NonDegenerate scenario20 14) ∧
    ∃ r, calculateRSI scenario20 14 = Except.ok r ∧
      ∀ pt ∈ r, ∃ v : ℚ, pt.y = some (JSNum.fin v) ∧ 0 ≤ v ∧ v ≤ 100 :=
  ⟨⟨by decide, by decide, by decide, by decide!⟩,
    calculateRSI_values_in_range scenario20 14 (by decide) (by decide) (by decide) (by decide!)⟩

/-- Claim C4: for `p >= 1`, `calculateRSI(data, p)` raises an error if and only
if `len(data) <= p`, and returns a series when `len(data) > p`. -/
theorem calculateRSI_fails_iff (data : List Point) (p : Nat) (hp : 1 ≤ p) :
    ((∃ e, calculateRSI data p = Except.error e) ↔ data.length ≤ p) ∧
    (p < data.length → ∃ r, calculateRSI data p = Except.ok r) := by
  refine ⟨⟨?_, ?_⟩, ?_⟩
  · rintro ⟨e, he⟩
    by_contra hlt
    obtain ⟨r, hr, -⟩ := calculateRSI_ok data p (by omega)
    rw [hr] at he
    cases he
  · intro h
    exact ⟨_, calculateRSI_error data p hp h⟩
  · intro h
    obtain ⟨r, hr, -⟩ := calculateRSI_ok data p h
    exact ⟨r, hr⟩

/-- Witness of claim C4: three points with `p = 3` raise the error, three points
with `p = 2` return a series. -/
theorem calculateRSI_fails_iff_witness :
    (1 ≤ 3 ∧ calculateRSI threePoints 3 = Except.error JSError.typeError) ∧
    (((∃ e, calculateRSI threePoints 3 = Except.error e) ↔ threePoints.length ≤ 3) ∧
      (3 < threePoints.length → ∃ r, calculateRSI threePoints 3 = Except.ok r)) ∧
    (∃ r, calculateRSI threePoints 2 = Except.ok r) :=
  ⟨⟨by decide, by decide!⟩, calculateRSI_fails_iff threePoints 3 (by decide),
    (calculateRSI_fails_iff threePoints 2 (by decide)).2 (by decide)⟩

/-- Counterexample to claim C5 as stated: on three points with period 2,
`calculateEMA` returns one point (at the position of `data[2]`), not
`3 - 2 + 1 = 2` points. -/
theorem ema_three_points_counterexample :
    (1 ≤ 2 ∧ 2 ≤ threePoints.length) ∧
    calculateEMA threePoints 2 = Except.ok [{ x := 2, y := some (JSNum.fin 25) }] ∧
    ¬ ∃ r, calculateEMA threePoints 2 = Except.ok r ∧ r.length = threePoints.length - 2 + 1 := by
  have e : calculateEMA threePoints 2 = Except.ok [{ x := 2, y := some (JSNum.fin 25) }] := by
    decide!
  refine ⟨by decide, e, ?_⟩
  rintro ⟨r, hr, hl⟩
  rw [e] at hr
  cases hr
  revert hl
  decide

/-- Claim C5, amended: for every period `q >= 1` and every series with
`len(data) >= q`, `calculateEMA(data, q)` returns exactly `len(data) - q` points:
the loop skips every index `i < q`, so the first point is emitted at index `q`. -/
theorem calculateEMA_length_amended (data : List Point) (q : Nat) (hq : 1 ≤ q)
    (hlen : q ≤ data.length) :
    ∃ r, calculateEMA data q = Except.ok r ∧ r.length = data.length - q := by
  obtain ⟨r, hr, hx⟩ := calculateEMA_ok data q
  refine ⟨r, hr, ?_⟩
  have := congrArg List.length hx
  simpa using this

/-- Witness of the amended claim C5 on three points with period 2. -/
theorem calculateEMA_length_amended_witness :
    (1 ≤ 2 ∧ 2 ≤ threePoints.length) ∧
    ∃ r, calculateEMA threePoints 2 = Except.ok r ∧ r.length = threePoints.length - 2 :=
  ⟨by decide, calculateEMA_length_amended threePoints 2 (by decide) (by decide)⟩

/-- Counterexample to claim C6 as stated: on three points with period 2,
`calculateWMA` returns one point (at the position of `data[2]`), not
`3 - 2 + 1 = 2` points. -/
theorem wma_three_points_counterexample :
    (1 ≤ 2 ∧ 2 ≤ threePoints.length) ∧
    calculateWMA threePoints 2 = Except.ok [{ x := 2, y := some (JSNum.fin (80 / 3)) }] ∧
    ¬ ∃ r, calculateWMA threePoints 2 = Except.ok r ∧ r.length = threePoints.length - 2 + 1 := by
  have e : calculateWMA threePoints 2
      = Except.ok [{ x := 2, y := some (JSNum.fin (80 / 3)) }] := by
    decide!
  refine ⟨by decide, e, ?_⟩
  rintro ⟨r, hr, hl⟩
  rw [e] at hr
  cases hr
  revert hl
  decide

/-- Claim C6, amended: for every period `q >= 1` and every series with
`len(data) >= q`, `calculateWMA(data, q)` returns exactly `len(data) - q` points:
the loop starts at index `q`, so the window `data[0..q-1]` is never emitted. -/
theorem calculateWMA_length_amended (data : List Point) (q : Nat) (hq : 1 ≤ q)
    (hlen : q ≤ data.length) :
    ∃ r, calculateWMA data q = Except.ok r ∧ r.length = data.length - q := by
  obtain ⟨r, hr, hx⟩ := calculateWMA_ok data q
  refine ⟨r, hr, ?_⟩
  have := congrArg List.length hx
  simpa using this

/-- Witness of the amended claim C6 on three points with period 2. -/
theorem calculateWMA_length_amended_witness :
    (1 ≤ 2 ∧ 2 ≤ threePoints.length) ∧
    ∃ r, calculateWMA threePoints 2 = Except.ok r ∧ r.length = threePoints.length - 2 :=
  ⟨by decide, calculateWMA_length_amended threePoints 2 (by decide) (by decide)⟩

/-- Counterexample to claim C7 as stated: with period 2 the window of the only
output point is `data[1], data[2]`, whose first value is `null`; the output value
is the number `(3 * 2 + 0 * 1) / 3 = 2`, not an absent value. -/
theorem wma_null_in_window_counterexample :
    (nullInWindow[1]?).map Point.y = some none ∧
    calculateWMA nullInWindow 2 = Except.ok [{ x := 2, y := some (JSNum.fin 2) }] := by
  decide!

/-- Claim C7, amended: `calculateWMA` has no handling of absent values; a `null`
inside a window is coerced to the number `0` by the arithmetic.  For every series
and period the function returns, its result is the result on the series in which
every `null` is replaced by `0`, and every output value is a number, never
absent. -/
theorem calculateWMA_null_is_zero (data : List Point) (q : Nat) :
    ∃ r, calculateWMA data q = Except.ok r ∧
      calculateWMA (data.map zeroForNull) q = Except.ok r ∧
      ∀ pt ∈ r, ∃ v, pt.y = some v := by
  obtain ⟨r, hr, -⟩ := calculateWMA_ok data q
  refine ⟨r, hr, ?_, ?_⟩
  · rw [← hr]
    simp only [calculateWMA, List.length_map]
    exact wmaLoop_zeroForNull data q _ _ _
  · exact wmaLoop_values_present data q _ _ _ r hr

/-- Counterexample to claim C8 as stated: the 15-point input gives a 1-point RSI
series; `calculateEMA` with period 9 and `calculateWMA` with period 45 return the
empty series instead of failing, and the alignment block returns three 1-point
series. -/
theorem overlay_fifteen_points_counterexample :
    (calculateRSI scenario15 14).map List.length = Except.ok 1 ∧
    (calculateRSI scenario15 14 >>= fun rsi => calculateEMA rsi 9) = Except.ok [] ∧
    (calculateRSI scenario15 14 >>= fun rsi => calculateWMA rsi 45) = Except.ok [] ∧
    alignSeries scenario15 = Except.ok
      { paddedRSIData := [{ x := 64, y := none }]
        paddedEMAData := [{ x := 64, y := none }]
        paddedWMAData := [{ x := 64, y := none }] } := by
  decide!

/-- Claim C8, amended: when the series handed to an overlay smoother is shorter
than the smoother's period, `calculateEMA` and `calculateWMA` return the empty
series without raising an error, and the alignment block of a run whose RSI
series this is still returns its three series. -/
theorem overlay_short_input_returns_empty (rsi : List Point) (q : Nat) (h : rsi.length < q) :
    calculateEMA rsi q = Except.ok [] ∧ calculateWMA rsi q = Except.ok [] ∧
    ∀ closePrices, calculateRSI closePrices 14 = Except.ok rsi →
      ∃ out, alignSeries closePrices = Except.ok out := by
  refine ⟨calculateEMA_short rsi q (by omega), calculateWMA_short rsi q (by omega), ?_⟩
  intro closePrices hrsi
  have hlen : 14 < closePrices.length := by
    by_contra hle
    rw [calculateRSI_error closePrices 14 (by decide) (by omega)] at hrsi
    cases hrsi
  obtain ⟨_, _, _, _, _, _, -, -, -, -, -, -, -, -, -, hout⟩ := alignSeries_ok closePrices hlen
  exact ⟨_, hout⟩

/-- Witness of the amended claim C8: the 1-point RSI series of the 15-point
input, with period 9. -/
theorem overlay_short_input_returns_empty_witness :
    ([{ x := 14, y := some (JSNum.fin (2600 / 33)) }] : List Point).length < 9 ∧
    calculateRSI scenario15 14 = Except.ok [{ x := 14, y := some (JSNum.fin (2600 / 33)) }] ∧
    (calculateEMA [{ x := 14, y := some (JSNum.fin (2600 / 33)) }] 9 = Except.ok [] ∧
      calculateWMA [{ x := 14, y := some (JSNum.fin (2600 / 33)) }] 9 = Except.ok [] ∧
      ∀ closePrices,
        calculateRSI closePrices 14 = Except.ok [{ x := 14, y := some (JSNum.fin (2600 / 33)) }] →
        ∃ out, alignSeries closePrices = Except.ok out) :=
  ⟨by decide, by decide!,
    overlay_short_input_returns_empty [{ x := 14, y := some (JSNum.fin (2600 / 33)) }] 9
      (by decide)⟩

/-- Claim C9: for every input series with contiguous positions, the positions of
the output of every stage strictly increase with step 1: `calculateRSI`,
`padStartToMatch` of the RSI series with its EMA or WMA overlay, `calculateEMA`
and `calculateWMA` applied to the contiguous series, and each of the three final
series of the alignment block of `renderRSIChart`. -/
theorem positions_step_one (data : List Point) (p q : Nat) (hc : Contiguous data)
    (hp : 1 ≤ p) (hlen : p < data.length) :
    (∃ rsi, calculateRSI data p = Except.ok rsi ∧ StepOne rsi ∧
      (∃ ema, calculateEMA rsi q = Except.ok ema ∧
        ∃ padded, padStartToMatch rsi ema = Except.ok padded ∧ StepOne padded) ∧
      (∃ wma, calculateWMA rsi q = Except.ok wma ∧
        ∃ padded, padStartToMatch rsi wma = Except.ok padded ∧ StepOne padded)) ∧
    (∃ ema, calculateEMA data q = Except.ok ema ∧ StepOne ema) ∧
    (∃ wma, calculateWMA data q = Except.ok wma ∧ StepOne wma) ∧
    (14 < data.length → ∃ out, alignSeries data = Except.ok out ∧
      StepOne out.paddedRSIData ∧ StepOne out.paddedEMAData ∧ StepOne out.paddedWMAData) := by
  have hs : StepOne data := contiguous_stepOne data hc
  refine ⟨?_, ?_, ?_, ?_⟩
  · obtain ⟨rsi, hrsi, hx⟩ := calculateRSI_ok data p hlen
    have hsr : StepOne rsi := stepOne_of_positions _ _ hx (stepOne_drop data p hs)
    obtain ⟨ema, hema, hex⟩ := calculateEMA_ok rsi q
    obtain ⟨wma, hwma, hwx⟩ := calculateWMA_ok rsi q
    obtain ⟨pe, hpe, hpex⟩ := padStartToMatch_positions rsi ema q hex
    obtain ⟨pw, hpw, hpwx⟩ := padStartToMatch_positions rsi wma q hwx
    exact ⟨rsi, hrsi, hsr, ⟨ema, hema, pe, hpe, stepOne_of_positions _ _ hpex hsr⟩,
      ⟨wma, hwma, pw, hpw, stepOne_of_positions _ _ hpwx hsr⟩⟩
  · obtain ⟨ema, hema, hex⟩ := calculateEMA_ok data q
    exact ⟨ema, hema, stepOne_of_positions _ _ hex (stepOne_drop data q hs)⟩
  · obtain ⟨wma, hwma, hwx⟩ := calculateWMA_ok data q
    exact ⟨wma, hwma, stepOne_of_positions _ _ hwx (stepOne_drop data q hs)⟩
  · intro h14
    obtain ⟨rsi, emaRaw, wmaRaw, ema, wma, last, -, -, -, -, -, hx, hex, hwx, hlast, hout⟩ :=
      alignSeries_ok data h14
    have hsr : StepOne rsi := stepOne_of_positions _ _ hx (stepOne_drop data 14 hs)
    have hlaste : ∀ l : List Point, l.map Point.x = rsi.map Point.x →
        ∃ last', l.getLast? = some last' ∧ last'.x = last.x := by
      intro l hl
      have := congrArg List.getLast? hl
      rw [List.getLast?_map, List.getLast?_map, hlast] at this
      cases hll : l.getLast? with
      | none => rw [hll] at this; cases this
      | some last' =>
        rw [hll] at this
        exact ⟨last', rfl, by simpa using this⟩
    refine ⟨_, hout, ?_, ?_, ?_⟩
    · exact stepOne_slice _ _ (stepOne_append_trailing rsi last 50 hsr hlast)
    · obtain ⟨last', hl', hxl⟩ := hlaste ema hex
      have := stepOne_append_trailing ema last' 50 (stepOne_of_positions _ _ hex hsr) hl'
      rw [hxl] at this
      exact stepOne_slice _ _ this
    · obtain ⟨last', hl', hxl⟩ := hlaste wma hwx
      have := stepOne_append_trailing wma last' 50 (stepOne_of_positions _ _ hwx hsr) hl'
      rw [hxl] at this
      exact stepOne_slice _ _ this

/-- Witness of claim C9: the 20-point scenario with RSI period 14 and overlay
period 3. -/
theorem positions_step_one_witness :
    (Contiguous scenario20 ∧ 1 ≤ 14 ∧ 14 < scenario20.length) ∧
    ((∃ rsi, calculateRSI scenario20 14 = Except.ok rsi ∧ StepOne rsi ∧
      (∃ ema, calculateEMA rsi 3 = Except.ok ema ∧
        ∃ padded, padStartToMatch rsi ema = Except.ok padded ∧ StepOne padded) ∧
      (∃ wma, calculateWMA rsi 3 = Except.ok wma ∧
        ∃ padded, padStartToMatch rsi wma = Except.ok padded ∧ StepOne padded)) ∧
    (∃ ema, calculateEMA scenario20 3 = Except.ok ema ∧ StepOne ema) ∧
    (∃ wma, calculateWMA scenario20 3 = Except.ok wma ∧ StepOne wma) ∧
    (14 < scenario20.length → ∃ out, alignSeries scenario20 = Except.ok out ∧
      StepOne out.paddedRSIData ∧ StepOne out.paddedEMAData ∧ StepOne out.paddedWMAData)) :=
  ⟨by decide, positions_step_one scenario20 14 3 (by decide) (by decide) (by decide)⟩

/-- Claim C10: for every period `p >= 1` and every series of length `> p` with
finite values, with `G` the sum of the positive deltas and `L` the sum of the
magnitudes of the negative deltas over the transitions `1..p`, the first value
emitted by `calculateRSI` is `100 - 100 / (1 + (G / p) / (L / p))`, which for
`L > 0` is `100 * G / (G + L)`. -/
theorem calculateRSI_first_value (data : List Point) (p : Nat) (hp : 1 ≤ p)
    (hlen : p < data.length) (hfin : AllFinite data) :
    ∃ r first, calculateRSI data p = Except.ok r ∧ r.head? = some first ∧
      first.y = some ((JSNum.fin 100).sub ((JSNum.fin 100).div ((JSNum.fin 1).add
        (((JSNum.fin (seedGains data p)).div (JSNum.fin p)).div
          ((JSNum.fin (seedLosses data p)).div (JSNum.fin p)))))) ∧
      (0 < seedLosses data p → first.y
        = some (JSNum.fin (100 * seedGains data p / (seedGains data p + seedLosses data p)))) := by
  obtain ⟨ss, r, -, hr, hy, -, hhead⟩ := rsi_states_agree data hfin p hp hlen
  have hp0 : (p : ℚ) ≠ 0 := by
    have : 0 < p := hp
    exact_mod_cast this.ne'
  have hpp : (0 : ℚ) < (p : ℚ) := by
    have : 0 < p := hp
    exact_mod_cast this
  cases ss with
  | nil => cases hhead
  | cons s0 ss =>
    cases r with
    | nil => cases hy
    | cons first r =>
      simp only [List.head?_cons, Option.some.injEq] at hhead
      simp only [List.map_cons, List.cons.injEq] at hy
      have hfirst : first.y = some (rsiOf s0) := hy.1
      refine ⟨first :: r, first, hr, rfl, ?_, ?_⟩
      · rw [hfirst, hhead]
        simp only [rsiOf, JSNum.div_fin _ _ hp0]
      · intro hL
        have hG := seedGains_nonneg data p
        have hl : 0 < seedLosses data p / p := div_pos hL hpp
        rw [hfirst, hhead, rsiOf_finite _ _ (div_nonneg hG hpp.le) hl]
        congr 2
        have hGL : seedGains data p + seedLosses data p ≠ 0 := by linarith
        field_simp
        ring

/-- Witness of claim C10: for the 20-point scenario with `p = 14`, `G = 26`,
`L = 7` and the first RSI value is `2600 / 33`. -/
theorem calculateRSI_first_value_witness :
    (1 ≤ 14 ∧ 14 < scenario20.length ∧ AllFinite scenario20) ∧
    seedGains scenario20 14 = 26 ∧ seedLosses scenario20 14 = 7 ∧
    ∃ r first, calculateRSI scenario20 14 = Except.ok r ∧ r.head? = some first ∧
      first.y = some (JSNum.fin (2600 / 33)) := by
  have hG : seedGains scenario20 14 = 26 := by decide!
  have hL : seedLosses scenario20 14 = 7 := by decide!
  obtain ⟨r, first, hr, hh, -, hv⟩ :=
    calculateRSI_first_value scenario20 14 (by decide) (by decide) (by decide)
  refine ⟨by decide, hG, hL, r, first, hr, hh, ?_⟩
  rw [hv (by rw [hL]; norm_num), hG, hL]
  norm_num

/-- Claim C11: `calculateRSI` equals the Wilder fold.  For every period `p >= 1`
and every series of length `> p` with finite values, the `k`-th output value is
`100 - 100 / (1 + avgGain_k / avgLoss_k)`, where `(avgGain_0, avgLoss_0)` are the
seed averages and, with `diff = data[p + k].y - data[p + k - 1].y`, a
`diff >= 0` gives `avgGain_k = (avgGain_{k-1} * (p - 1) + diff) / p` and
`avgLoss_k = avgLoss_{k-1} * (p - 1) / p`, a negative one gives
`avgGain_k = avgGain_{k-1} * (p - 1) / p` and
`avgLoss_k = (avgLoss_{k-1} * (p - 1) + |diff|) / p`; a delta of exactly 0 takes
the gain branch and adds nothing to the average loss. -/
theorem calculateRSI_wilder_fold (data : List Point) (p : Nat) (hp : 1 ≤ p)
    (hlen : p < data.length) (hfin : AllFinite data) :
    (∃ r, calculateRSI data p = Except.ok r ∧ r.length = data.length - p ∧
      ∀ (k : Nat) (hk : k < r.length),
        r[k].y = some ((JSNum.fin 100).sub ((JSNum.fin 100).div ((JSNum.fin 1).add
          ((JSNum.fin (wilder data p k).1).div (JSNum.fin (wilder data p k).2))))) ∧
        ((wilder data p k).2 ≠ 0 → r[k].y
          = some (JSNum.fin (100 - 100 / (1 + (wilder data p k).1 / (wilder data p k).2))))) ∧
    wilder data p 0 = (seedGains data p / p, seedLosses data p / p) ∧
    (∀ k : Nat, 0 ≤ delta data (p + (k + 1)) →
      wilder data p (k + 1)
        = (((wilder data p k).1 * ((p : ℚ) - 1) + delta data (p + (k + 1))) / p,
            (wilder data p k).2 * ((p : ℚ) - 1) / p)) ∧
    (∀ k : Nat, delta data (p + (k + 1)) < 0 →
      wilder data p (k + 1)
        = ((wilder data p k).1 * ((p : ℚ) - 1) / p,
            ((wilder data p k).2 * ((p : ℚ) - 1) + |delta data (p + (k + 1))|) / p)) ∧
    (∀ k : Nat, delta data (p + (k + 1)) = 0 →
      wilder data p (k + 1)
        = ((wilder data p k).1 * ((p : ℚ) - 1) / p, (wilder data p k).2 * ((p : ℚ) - 1) / p)) := by
  refine ⟨?_, rfl, ?_, ?_, ?_⟩
  · obtain ⟨r, hr, hy⟩ := rsi_values_wilder data hfin p hp hlen
    have hl : r.length = data.length - p := by
      have := congrArg List.length hy
      simpa using this
    refine ⟨r, hr, hl, ?_⟩
    intro k hk
    have hk' : k < data.length - p := by omega
    have hyk : r[k].y = some (rsiOf (RSIState.ofRat (wilder data p k))) := by
      have := List.getElem_of_eq hy (by simpa using hk)
      simpa using this
    refine ⟨hyk, ?_⟩
    intro hne
    obtain ⟨hg, hl0⟩ := wilder_nonneg data p hp k
    rw [hyk]
    exact congrArg some (rsiOf_finite _ _ hg (lt_of_le_of_ne hl0 (Ne.symm hne)))
  · intro k hd
    show wilderStep p (wilder data p k) (delta data (p + (k + 1))) = _
    unfold wilderStep
    rw [if_pos hd]
  · intro k hd
    show wilderStep p (wilder data p k) (delta data (p + (k + 1))) = _
    unfold wilderStep
    rw [if_neg (not_le.2 hd)]
  · intro k hd
    show wilderStep p (wilder data p k) (delta data (p + (k + 1))) = _
    unfold wilderStep
    rw [if_pos (le_of_eq hd.symm), hd, add_zero]

/-- Witness of claim C11: for the 20-point scenario with `p = 14` the averages
after the first step are `183/98` and `13/28`, and the second RSI value is
`36600 / 457`. -/
theorem calculateRSI_wilder_fold_witness :
    (1 ≤ 14 ∧ 14 < scenario20.length ∧ AllFinite scenario20) ∧
    wilder scenario20 14 1 = (183 / 98, 13 / 28) ∧
    ∃ r, calculateRSI scenario20 14 = Except.ok r ∧
      ∀ hk : 1 < r.length, r[1].y = some (JSNum.fin (36600 / 457)) := by
  have hw : wilder scenario20 14 1 = (183 / 98, 13 / 28) := by decide!
  obtain ⟨⟨r, hr, -, hy⟩, -⟩ :=
    calculateRSI_wilder_fold scenario20 14 (by decide) (by decide) (by decide)
  refine ⟨by decide, hw, r, hr, ?_⟩
  intro hk
  rw [(hy 1 hk).2 (by rw [hw]; norm_num), hw]
  norm_num

/-- Counterexample to claim C12 as stated: on the four points `10, 20, 60, 100`
with period 2 the first value emitted is `40 = (20 + 60) / 2`, the average of
`data[1].y, data[2].y`, not the average `15` of the first two values; the second
value is `(100 - 40) * (2/3) + 40 = 80`. -/
theorem ema_seed_window_counterexample :
    calculateEMA fourPoints 2 = Except.ok
      [{ x := 2, y := some (JSNum.fin 40) }, { x := 3, y := some (JSNum.fin 80) }] ∧
    (valueAt fourPoints 0 + valueAt fourPoints 1) / 2 = 15 ∧
    ¬ ∃ r first, calculateEMA fourPoints 2 = Except.ok r ∧ r.head? = some first ∧
      first.y = some (JSNum.fin ((valueAt fourPoints 0 + valueAt fourPoints 1) / 2)) := by
  have e : calculateEMA fourPoints 2 = Except.ok
      [{ x := 2, y := some (JSNum.fin 40) }, { x := 3, y := some (JSNum.fin 80) }] := by decide!
  have hv : (valueAt fourPoints 0 + valueAt fourPoints 1) / 2 = 15 := by decide!
  refine ⟨e, hv, ?_⟩
  rintro ⟨r, first, hr, hh, hy⟩
  rw [e] at hr
  cases hr
  simp only [List.head?_cons, Option.some.injEq] at hh
  subst hh
  rw [hv] at hy
  revert hy
  decide!

/-- Claim C12, amended: for every period `q >= 1` and every series with finite
values and more than `q` points, the first value emitted by
`calculateEMA(data, q)` is the simple average of the `q` values
`data[1].y .. data[q].y` (the window ending at index `q`), and every later
output equals `(v - emaPrev) * (2 / (q + 1)) + emaPrev`, where `emaPrev` is the
previous output and `v = data[q + m].y` is the next input value. -/
theorem calculateEMA_recurrence_amended (data : List Point) (q : Nat) (hq : 1 ≤ q)
    (hlen : q < data.length) (hfin : AllFinite data) :
    ∃ r, calculateEMA data q = Except.ok r ∧ r.length = data.length - q ∧
      (∀ h0 : 0 < r.length,
        r[0].y = some (JSNum.fin (((List.range' 1 q).map (valueAt data)).sum / q))) ∧
      (∀ (m : Nat) (h : m + 1 < r.length), ∃ emaPrev : ℚ,
        (r.get ⟨m, Nat.lt_of_succ_lt h⟩).y = some (JSNum.fin emaPrev) ∧
        r[m + 1].y = some (JSNum.fin
          ((valueAt data (q + (m + 1)) - emaPrev) * (2 / ((q : ℚ) + 1)) + emaPrev))) := by
  obtain ⟨r, hr, hy⟩ := calculateEMA_values data hfin q hq
  have hl : r.length = data.length - q := by
    have := congrArg List.length hy
    simpa using this
  have hget : ∀ (m : Nat) (hm : m < r.length), r[m].y = some (JSNum.fin (emaRef data q m)) := by
    intro m hm
    have := List.getElem_of_eq hy (by simpa using hm)
    simpa using this
  refine ⟨r, hr, hl, ?_, ?_⟩
  · intro h0
    exact hget 0 h0
  · intro m h
    exact ⟨emaRef data q m, hget m (Nat.lt_of_succ_lt h), hget (m + 1) h⟩

/-- Witness of the amended claim C12: the four points with period 2. -/
theorem calculateEMA_recurrence_amended_witness :
    (1 ≤ 2 ∧ 2 < fourPoints.length ∧ AllFinite fourPoints) ∧
    ((List.range' 1 2).map (valueAt fourPoints)).sum / 2 = 40 ∧
    ∃ r, calculateEMA fourPoints 2 = Except.ok r ∧ r.length = fourPoints.length - 2 ∧
      (∀ h0 : 0 < r.length, r[0].y = some (JSNum.fin 40)) := by
  have hv : ((List.range' 1 2).map (valueAt fourPoints)).sum / 2 = 40 := by decide!
  obtain ⟨r, hr, hl, h0, -⟩ :=
    calculateEMA_recurrence_amended fourPoints 2 (by decide) (by decide) (by decide)
  refine ⟨by decide, hv, r, hr, hl, ?_⟩
  intro h
  have := h0 h
  rw [this]
  exact congrArg (fun v => some (JSNum.fin v)) (by exact_mod_cast hv)

/-- Claim C13: for every period `q >= 1` and every series with finite values,
`calculateWMA(data, q)` emits one point for each window end `i = q + m` with
`i < len(data)` and no other point; the point emitted for the window ending at
input index `i` has the position of `data[i]` and the value
`(sum over j = 0..q-1 of data[i - j].y * (q - j)) / (q * (q + 1) / 2)`: the most
recent point has weight `q`, the oldest point of the window has weight 1, and the
weights sum to the divisor. -/
theorem calculateWMA_weighted_average (data : List Point) (q : Nat) (hq : 1 ≤ q)
    (hfin : AllFinite data) :
    (∃ r, calculateWMA data q = Except.ok r ∧ r.length = data.length - q ∧
      ∀ (m : Nat) (hm : m < r.length), ∃ hd : q + m < data.length,
        r[m].x = data[q + m].x ∧
        r[m].y = some (JSNum.fin
          (((List.range q).map (fun j => valueAt data (q + m - j) * wmaWeight q j)).sum
            / ((q : ℚ) * ((q : ℚ) + 1) / 2)))) ∧
    wmaWeight q 0 = q ∧ wmaWeight q (q - 1) = 1 ∧
    ((List.range q).map (wmaWeight q)).sum = (q : ℚ) * ((q : ℚ) + 1) / 2 := by
  refine ⟨?_, ?_, ?_, wmaWeight_sum q⟩
  · obtain ⟨r, hr, hy⟩ := calculateWMA_values data hfin q hq
    obtain ⟨r', hr', hx⟩ := calculateWMA_ok data q
    rw [hr] at hr'
    cases hr'
    have hl : r.length = data.length - q := by
      have := congrArg List.length hx
      simpa using this
    refine ⟨r, hr, hl, ?_⟩
    intro m hm
    have hd : q + m < data.length := by omega
    refine ⟨hd, ?_, ?_⟩
    · have := List.getElem_of_eq hx (by simpa using hm)
      simpa using this
    · have := List.getElem_of_eq hy (by simpa using hm)
      simpa [wmaRef] using this
  · simp [wmaWeight]
  · unfold wmaWeight
    rw [Nat.cast_sub hq]
    simp

/-- Witness of claim C13: three points with period 2 give exactly one point, for
the window ending at index 2, with position 2 and value
`(30 * 2 + 20 * 1) / 3 = 80 / 3`. -/
theorem calculateWMA_weighted_average_witness :
    (1 ≤ 2 ∧ AllFinite threePoints) ∧
    ((List.range 2).map (fun j => valueAt threePoints (2 + 0 - j) * wmaWeight 2 j)).sum
      / (((2 : Nat) : ℚ) * (((2 : Nat) : ℚ) + 1) / 2) = 80 / 3 ∧
    (∃ r, calculateWMA threePoints 2 = Except.ok r ∧ r.length = 1 ∧
      ∃ hm : 0 < r.length, r[0].x = 2 ∧ r[0].y = some (JSNum.fin (80 / 3))) ∧
    calculateWMA threePoints 2 = Except.ok [{ x := 2, y := some (JSNum.fin (80 / 3)) }] := by
  have hv : ((List.range 2).map (fun j => valueAt threePoints (2 + 0 - j) * wmaWeight 2 j)).sum
      / (((2 : Nat) : ℚ) * (((2 : Nat) : ℚ) + 1) / 2) = 80 / 3 := by decide!
  obtain ⟨⟨r, hr, hl, h⟩, -⟩ :=
    calculateWMA_weighted_average threePoints 2 (by decide) (by decide)
  have hl1 : r.length = 1 := hl
  have hm : 0 < r.length := by omega
  obtain ⟨hd, hx, hy⟩ := h 0 hm
  refine ⟨by decide, hv, ⟨r, hr, hl1, hm, ?_, ?_⟩, by decide!⟩
  · rw [hx]; rfl
  · rw [hy, hv]

/-- Claim C14: for every `refData` and `targetData` with
`len(targetData) <= len(refData)`, `padStartToMatch(refData, targetData)` has
length `len(refData)`; with `d = len(refData) - len(targetData)`, its first `d`
points are absent-valued with the positions of `refData[0] .. refData[d - 1]`,
and its remaining points are exactly `targetData` in order. -/
theorem padStartToMatch_layout (refData targetData : List Point)
    (h : targetData.length ≤ refData.length) :
    ∃ r, padStartToMatch refData targetData = Except.ok r ∧ r.length = refData.length ∧
      (∀ (i : Nat) (hi : i < refData.length - targetData.length) (hr : i < r.length)
        (hd : i < refData.length), r[i] = { x := refData[i].x, y := none }) ∧
      r.drop (refData.length - targetData.length) = targetData := by
  refine ⟨_, padStartToMatch_eq refData targetData, ?_, ?_, ?_⟩
  · simp only [List.length_append, List.length_map, List.length_take]
    omega
  · intro i hi hr hd
    rw [List.getElem_append_left (by simp only [List.length_map, List.length_take]; omega)]
    simp only [List.getElem_map, List.getElem_take]
    rfl
  · have hl : ((refData.take (refData.length - targetData.length)).map nullAt).length
        = refData.length - targetData.length := by
      simp only [List.length_map, List.length_take]
      omega
    rw [List.drop_left' hl]

/-- Witness of claim C14: three reference points and a one-point target. -/
theorem padStartToMatch_layout_witness :
    ([{ x := 2, y := some (JSNum.fin 25) }] : List Point).length ≤ threePoints.length ∧
    (∃ r, padStartToMatch threePoints [{ x := 2, y := some (JSNum.fin 25) }] = Except.ok r ∧
      r.length = threePoints.length ∧
      (∀ (i : Nat)
        (hi : i < threePoints.length - ([{ x := 2, y := some (JSNum.fin 25) }] : List Point).length)
        (hr : i < r.length) (hd : i < threePoints.length),
        r[i] = { x := threePoints[i].x, y := none }) ∧
      r.drop (threePoints.length - ([{ x := 2, y := some (JSNum.fin 25) }] : List Point).length)
        = [{ x := 2, y := some (JSNum.fin 25) }]) ∧
    padStartToMatch threePoints [{ x := 2, y := some (JSNum.fin 25) }] = Except.ok
      [{ x := 0, y := none }, { x := 1, y := none }, { x := 2, y := some (JSNum.fin 25) }] :=
  ⟨by decide, padStartToMatch_layout threePoints [{ x := 2, y := some (JSNum.fin 25) }] (by decide),
    by decide!⟩

/-- Claim C15 at the 24-point input: the padded EMA starts at index 9, the padded
WMA has no present value (start index `-1`), the cut is taken at
`max(9, -1) = 9`, and at index 0 of the output (position 23) the RSI and EMA
values are present while the WMA value is `null`; no point of the final WMA
series has a value. -/
theorem wma_absent_after_cut :
    (calculateRSI scenario24 14 >>= fun rsi => calculateEMA rsi 9 >>= fun raw =>
      padStartToMatch rsi raw >>= fun ema =>
        pure (findIndex ema (fun item => item.y != none))) = Except.ok 9 ∧
    (calculateRSI scenario24 14 >>= fun rsi => calculateWMA rsi 45 >>= fun raw =>
      padStartToMatch rsi raw >>= fun wma =>
        pure (findIndex wma (fun item => item.y != none))) = Except.ok (-1) ∧
    (alignSeries scenario24).map (fun out => out.paddedRSIData.length) = Except.ok 51 ∧
    (alignSeries scenario24).map
      (fun out => (out.paddedRSIData[0]?).map (fun pt => (pt.x, pt.y.isSome)))
      = Except.ok (some (23, true)) ∧
    (alignSeries scenario24).map
      (fun out => (out.paddedEMAData[0]?).map (fun pt => (pt.x, pt.y.isSome)))
      = Except.ok (some (23, true)) ∧
    (alignSeries scenario24).map (fun out => out.paddedWMAData[0]?)
      = Except.ok (some { x := 23, y := none }) ∧
    (alignSeries scenario24).map (fun out => out.paddedWMAData.all (fun pt => pt.y.isNone))
      = Except.ok true := by
  decide!

/-- Claim C16: for every input series of length `> 14` whose RSI series has more
than 45 points, each of the three final series is the series before padding,
cut at index 45, followed by exactly 50 absent-valued points with positions
`lastX + 1, ..., lastX + 50`, where `lastX` is the position of the last RSI
point; the points before the trailing ones are those of the unpadded series and
all have a value. -/
theorem trailing_padding_appended (closePrices : List Point) (h₁ : 14 < closePrices.length)
    (h₂ : 45 < closePrices.length - 14) :
    ∃ rsi emaRaw wmaRaw ema wma last out,
      calculateRSI closePrices 14 = Except.ok rsi ∧ rsi.length = closePrices.length - 14 ∧
      calculateEMA rsi 9 = Except.ok emaRaw ∧ padStartToMatch rsi emaRaw = Except.ok ema ∧
      calculateWMA rsi 45 = Except.ok wmaRaw ∧ padStartToMatch rsi wmaRaw = Except.ok wma ∧
      rsi.getLast? = some last ∧
      alignSeries closePrices = Except.ok out ∧
      out.paddedRSIData = rsi.drop 45 ++ trailingPoints last.x 50 ∧
      out.paddedEMAData = ema.drop 45 ++ trailingPoints last.x 50 ∧
      out.paddedWMAData = wma.drop 45 ++ trailingPoints last.x 50 ∧
      (trailingPoints last.x 50).length = 50 ∧
      (∀ i : Nat, i < 50 →
        (trailingPoints last.x 50)[i]? = some { x := last.x + ((i : Int) + 1), y := none }) ∧
      (rsi.drop 45 ≠ [] ∧ ∀ pt ∈ rsi.drop 45, ∃ v, pt.y = some v) ∧
      (ema.drop 45 ≠ [] ∧ ∀ pt ∈ ema.drop 45, ∃ v, pt.y = some v) ∧
      (wma.drop 45 ≠ [] ∧ ∀ pt ∈ wma.drop 45, ∃ v, pt.y = some v) := by
  obtain ⟨rsi, emaRaw, wmaRaw, ema, wma, last, hrsi, hema, hwma, hpe, hpw, hx, hex, hwx, he1, hw1,
    he2, hw2, hlast, -, -, hout⟩ := alignSeries_long closePrices (by omega)
  have hlen : rsi.length = closePrices.length - 14 := by
    have := congrArg List.length hx
    simpa using this
  have hne : ∀ l : List Point, l.length = rsi.length → l.drop 45 ≠ [] := by
    intro l hl hnil
    have := congrArg List.length hnil
    simp only [List.length_drop, List.length_nil] at this
    omega
  have hle : ema.length = rsi.length := by
    have := congrArg List.length hex
    simpa using this
  have hlw : wma.length = rsi.length := by
    have := congrArg List.length hwx
    simpa using this
  have hed : ema.drop 45 = emaRaw.drop 36 := by
    have hl : ((rsi.take 9).map nullAt).length = 9 := by
      simp only [List.length_map, List.length_take]
      omega
    have := @List.drop_append _ ((rsi.take 9).map nullAt) emaRaw 36
    rw [hl] at this
    rw [he1]
    exact this
  have hwd : wma.drop 45 = wmaRaw := by
    have hl : ((rsi.take 45).map nullAt).length = 45 := by
      simp only [List.length_map, List.length_take]
      omega
    rw [hw1, List.drop_left' hl]
  refine ⟨rsi, emaRaw, wmaRaw, ema, wma, last, _, hrsi, hlen, hema, hpe, hwma, hpw, hlast, hout,
    rfl, rfl, rfl, by simp [trailingPoints], ?_, ⟨hne rsi rfl, ?_⟩, ⟨hne ema hle, ?_⟩,
    ⟨hne wma hlw, ?_⟩⟩
  · intro i hi
    simp only [trailingPoints, List.getElem?_map, List.getElem?_range' 1 1 hi, Option.map_some']
    congr 2
    push_cast
    ring
  · intro pt hpt
    exact calculateRSI_values_present closePrices 14 rsi hrsi pt (List.mem_of_mem_drop hpt)
  · intro pt hpt
    rw [hed] at hpt
    exact calculateEMA_values_present rsi 9 emaRaw hema pt (List.mem_of_mem_drop hpt)
  · intro pt hpt
    rw [hwd] at hpt
    exact calculateWMA_values_present rsi 45 wmaRaw hwma pt hpt

/-- Witness of claim C16: the 200-point input. -/
theorem trailing_padding_appended_witness :
    (14 < scenario200.length ∧ 45 < scenario200.length - 14) ∧
    ∃ rsi last out, calculateRSI scenario200 14 = Except.ok rsi ∧ rsi.getLast? = some last ∧
      alignSeries scenario200 = Except.ok out ∧
      out.paddedRSIData = rsi.drop 45 ++ trailingPoints last.x 50 ∧
      (trailingPoints last.x 50).length = 50 := by
  obtain ⟨rsi, -, -, -, -, last, out, hrsi, -, -, -, -, -, hlast, hout, h1, -, -, h50, -⟩ :=
    trailing_padding_appended scenario200 (by decide!) (by decide!)
  exact ⟨by decide!, rsi, last, out, hrsi, hlast, hout, h1, h50⟩

/-- Claim C17: in exact arithmetic, for every period `q >= 1` and every series
whose values are finite numbers of an interval `[lo, hi]`, every value emitted by
`calculateEMA(data, q)` and by `calculateWMA(data, q)` lies in `[lo, hi]`. -/
theorem overlays_stay_in_interval (data : List Point) (q : Nat) (lo hi : ℚ) (hq : 1 ≤ q)
    (hv : ValuesIn data lo hi) :
    (∃ r, calculateEMA data q = Except.ok r ∧
      ∀ pt ∈ r, ∃ v : ℚ, pt.y = some (JSNum.fin v) ∧ lo ≤ v ∧ v ≤ hi) ∧
    (∃ r, calculateWMA data q = Except.ok r ∧
      ∀ pt ∈ r, ∃ v : ℚ, pt.y = some (JSNum.fin v) ∧ lo ≤ v ∧ v ≤ hi) := by
  have hfin := valuesIn_allFinite data lo hi hv
  constructor
  · obtain ⟨r, hr, hy⟩ := calculateEMA_values data hfin q hq
    refine ⟨r, hr, ?_⟩
    intro pt hpt
    have hmem : pt.y ∈ r.map Point.y := List.mem_map.2 ⟨pt, hpt, rfl⟩
    rw [hy] at hmem
    obtain ⟨m, hm, hmy⟩ := List.mem_map.1 hmem
    have hm' : m < data.length - q := List.mem_range.1 hm
    exact ⟨emaRef data q m, hmy.symm, emaRef_mem data lo hi hv q hq m (by omega)⟩
  · obtain ⟨r, hr, hy⟩ := calculateWMA_values data hfin q hq
    refine ⟨r, hr, ?_⟩
    intro pt hpt
    have hmem : pt.y ∈ r.map Point.y := List.mem_map.2 ⟨pt, hpt, rfl⟩
    rw [hy] at hmem
    obtain ⟨i, hmi, hiy⟩ := List.mem_map.1 hmem
    obtain ⟨h1, h2⟩ := List.mem_range'_1.1 hmi
    exact ⟨wmaRef data q i, hiy.symm, wmaRef_mem data lo hi hv q hq i h1 (by omega)⟩

/-- Witness of claim C17: the RSI series of the 20-point scenario has its values
in `[0, 100]`, and so have its overlays with period 3. -/
theorem overlays_stay_in_interval_witness :
    (1 ≤ 3 ∧ ValuesIn scenario20RSI 0 100) ∧
    calculateRSI scenario20 14 = Except.ok scenario20RSI ∧
    (∃ r, calculateEMA scenario20RSI 3 = Except.ok r ∧ r.length = 3 ∧
      ∀ pt ∈ r, ∃ v : ℚ, pt.y = some (JSNum.fin v) ∧ 0 ≤ v ∧ v ≤ 100) ∧
    (∃ r, calculateWMA scenario20RSI 3 = Except.ok r ∧ r.length = 3 ∧
      ∀ pt ∈ r, ∃ v : ℚ, pt.y = some (JSNum.fin v) ∧ 0 ≤ v ∧ v ≤ 100) := by
  obtain ⟨⟨e, he, hev⟩, ⟨w, hw, hwv⟩⟩ :=
    overlays_stay_in_interval scenario20RSI 3 0 100 (by decide) (by decide!)
  have hel : (calculateEMA scenario20RSI 3).map List.length = Except.ok 3 := by decide!
  have hwl : (calculateWMA scenario20RSI 3).map List.length = Except.ok 3 := by decide!
  rw [he] at hel
  rw [hw] at hwl
  refine ⟨⟨by decide, by decide!⟩, by decide!, ⟨e, he, ?_, hev⟩, ⟨w, hw, ?_, hwv⟩⟩
  · simpa [Except.map] using hel
  · simpa [Except.map] using hwl

/-- Claim C18: in exact arithmetic, for every period `p >= 2` and every series of
length `> p` with finite values, the average loss behind the `k`-th output of
`calculateRSI` is zero if and only if none of the transitions `1..p + k` is
negative; once a negative delta has occurred, the divisors `avgLoss` and
`1 + rs` are non-zero and the RSI value is strictly below 100. -/
theorem avgLoss_zero_iff_no_negative_delta (data : List Point) (p : Nat) (hp : 2 ≤ p)
    (hlen : p < data.length) (hfin : AllFinite data) :
    ∃ ss r, rsiStates data p = Except.ok ss ∧ calculateRSI data p = Except.ok r ∧
      ss.length = data.length - p ∧ r.length = data.length - p ∧
      ∀ (k : Nat) (hs : k < ss.length) (hr : k < r.length),
        ∃ g l : ℚ, ss[k] = { avgGain := JSNum.fin g, avgLoss := JSNum.fin l } ∧
          r[k].y = some (rsiOf ss[k]) ∧
          (l = 0 ↔ ∀ i, 1 ≤ i → i ≤ p + k → 0 ≤ delta data i) ∧
          ((∃ i, 1 ≤ i ∧ i ≤ p + k ∧ delta data i < 0) →
            l ≠ 0 ∧ 1 + g / l ≠ 0 ∧ ∃ v : ℚ, r[k].y = some (JSNum.fin v) ∧ v < 100) := by
  have hp1 : 1 ≤ p := by omega
  obtain ⟨r, hr, hy⟩ := rsi_values_wilder data hfin p hp1 hlen
  have hl : r.length = data.length - p := by
    have := congrArg List.length hy
    simpa using this
  refine ⟨_, r, rsiStates_wilder data hfin p hp1 hlen, hr, by simp, hl, ?_⟩
  intro k hs hk
  have hyk : r[k].y = some (rsiOf (RSIState.ofRat (wilder data p k))) := by
    have := List.getElem_of_eq hy (by simpa using hk)
    simpa using this
  have hsk : ((List.range (data.length - p)).map
      (fun m => RSIState.ofRat (wilder data p m)))[k] = RSIState.ofRat (wilder data p k) := by
    simp
  obtain ⟨hg, hl0⟩ := wilder_nonneg data p hp1 k
  have hiff := wilder_loss_eq_zero_iff data p hp k
  refine ⟨(wilder data p k).1, (wilder data p k).2, ?_, ?_, hiff, ?_⟩
  · rw [hsk]; rfl
  · rw [hsk]; exact hyk
  · rintro ⟨i, h1, hi, hneg⟩
    have hne : (wilder data p k).2 ≠ 0 := by
      intro h0
      have := hiff.1 h0 i h1 hi
      linarith
    have hpos : 0 < (wilder data p k).2 := lt_of_le_of_ne hl0 (Ne.symm hne)
    have hrs : 0 ≤ (wilder data p k).1 / (wilder data p k).2 := div_nonneg hg hpos.le
    have h1rs : (0 : ℚ) < 1 + (wilder data p k).1 / (wilder data p k).2 := by linarith
    refine ⟨hne, h1rs.ne',
      100 - 100 / (1 + (wilder data p k).1 / (wilder data p k).2), ?_, ?_⟩
    · rw [hyk]
      exact congrArg some (rsiOf_finite _ _ hg hpos)
    · have : 0 < 100 / (1 + (wilder data p k).1 / (wilder data p k).2) :=
        div_pos (by norm_num) h1rs
      linarith

/-- Witness of claim C18: the 20-point scenario with `p = 14`. -/
theorem avgLoss_zero_iff_no_negative_delta_witness :
    (2 ≤ 14 ∧ 14 < scenario20.length ∧ AllFinite scenario20) ∧
    delta scenario20 2 < 0 ∧
    ∃ ss r, rsiStates scenario20 14 = Except.ok ss ∧ calculateRSI scenario20 14 = Except.ok r ∧
      ∀ (k : Nat) (hs : k < ss.length) (hr : k < r.length),
        ss[k].avgLoss ≠ JSNum.fin 0 ∧ ∃ v : ℚ, r[k].y = some (JSNum.fin v) ∧ v < 100 := by
  have hd : delta scenario20 2 < 0 := by decide!
  obtain ⟨ss, r, hss, hr, -, -, h⟩ :=
    avgLoss_zero_iff_no_negative_delta scenario20 14 (by decide) (by decide) (by decide)
  refine ⟨by decide, hd, ss, r, hss, hr, ?_⟩
  intro k hs hk
  obtain ⟨g, l, hsk, -, -, hlater⟩ := h k hs hk
  obtain ⟨hne, -, v, hv, hlt⟩ := hlater ⟨2, by omega, by omega, hd⟩
  refine ⟨?_, v, hv, hlt⟩
  rw [hsk]
  intro h0
  exact hne (by simpa using h0)

/-- Claim C19: for every input series of `n >= 60` points, the RSI series has
`n - 14` numeric points, the padded EMA series has its first present value at
index 9 and the padded WMA series at index 45, so each of the three final series
has exactly `n - 9` points and starts at the position of `data[59]`. -/
theorem long_input_start_indices (closePrices : List Point) (h : 60 ≤ closePrices.length) :
    ∃ rsi emaRaw wmaRaw ema wma out,
      calculateRSI closePrices 14 = Except.ok rsi ∧ rsi.length = closePrices.length - 14 ∧
      (∀ pt ∈ rsi, ∃ v, pt.y = some v) ∧
      calculateEMA rsi 9 = Except.ok emaRaw ∧ padStartToMatch rsi emaRaw = Except.ok ema ∧
      calculateWMA rsi 45 = Except.ok wmaRaw ∧ padStartToMatch rsi wmaRaw = Except.ok wma ∧
      findIndex ema (fun item => item.y != none) = 9 ∧
      findIndex wma (fun item => item.y != none) = 45 ∧
      alignSeries closePrices = Except.ok out ∧
      out.paddedRSIData.length = closePrices.length - 9 ∧
      out.paddedEMAData.length = closePrices.length - 9 ∧
      out.paddedWMAData.length = closePrices.length - 9 ∧
      (out.paddedRSIData[0]?).map Point.x = (closePrices[59]?).map Point.x ∧
      (out.paddedEMAData[0]?).map Point.x = (closePrices[59]?).map Point.x ∧
      (out.paddedWMAData[0]?).map Point.x = (closePrices[59]?).map Point.x := by
  obtain ⟨rsi, emaRaw, wmaRaw, ema, wma, last, hrsi, hema, hwma, hpe, hpw, hx, hex, hwx, -, -,
    -, -, -, hes, hws, hout⟩ := alignSeries_long closePrices h
  have hlen : rsi.length = closePrices.length - 14 := by
    have := congrArg List.length hx
    simpa using this
  have hle : ema.length = rsi.length := by
    have := congrArg List.length hex
    simpa using this
  have hlw : wma.length = rsi.length := by
    have := congrArg List.length hwx
    simpa using this
  have htl : (trailingPoints last.x 50).length = 50 := by simp [trailingPoints]
  have hhead : ∀ l : List Point, l.map Point.x = rsi.map Point.x →
      ((l.drop 45 ++ trailingPoints last.x 50)[0]?).map Point.x
        = (closePrices[59]?).map Point.x := by
    intro l hl
    have hll : l.length = rsi.length := by
      have := congrArg List.length hl
      simpa using this
    have h0 : 0 < (l.drop 45).length := by
      simp only [List.length_drop]
      omega
    rw [List.getElem?_append_left h0, List.getElem?_drop, ← List.getElem?_map, hl, hx,
      List.getElem?_map, List.getElem?_drop]
  refine ⟨rsi, emaRaw, wmaRaw, ema, wma, _, hrsi, hlen,
    calculateRSI_values_present closePrices 14 rsi hrsi, hema, hpe, hwma, hpw, hes, hws, hout,
    ?_, ?_, ?_, hhead rsi rfl, hhead ema hex, hhead wma hwx⟩
  · simp only [List.length_append, List.length_drop, htl]
    omega
  · simp only [List.length_append, List.length_drop, htl]
    omega
  · simp only [List.length_append, List.length_drop, htl]
    omega

/-- Witness of claim C19: for the 200-point input each final series has 191
points and starts at position 59. -/
theorem long_input_start_indices_witness :
    60 ≤ scenario200.length ∧
    ∃ out, alignSeries scenario200 = Except.ok out ∧
      out.paddedRSIData.length = 191 ∧ out.paddedEMAData.length = 191 ∧
      out.paddedWMAData.length = 191 ∧
      (out.paddedRSIData[0]?).map Point.x = some 59 := by
  obtain ⟨-, -, -, -, -, out, -, -, -, -, -, -, -, -, -, hout, h1, h2, h3, h4, -, -⟩ :=
    long_input_start_indices scenario200 (by decide!)
  have hl : scenario200.length = 200 := by decide!
  have h59 : (scenario200[59]?).map Point.x = some 59 := by decide!
  rw [hl] at h1 h2 h3
  rw [h59] at h4
  exact ⟨by decide!, out, hout, h1, h2, h3, h4⟩

/-- Claim C20: for every input series of `n` points with `15 <= n <= 23`, both
overlays are empty, both start indices are `-1`, the cut is taken at index `-1`,
and each of the three final series is the single point
`{x: lastX + 50, y: null}`, the last trailing point; no computed RSI value
survives. -/
theorem alignSeries_short_input (closePrices : List Point) (h₁ : 15 ≤ closePrices.length)
    (h₂ : closePrices.length ≤ 23) :
    ∃ rsi emaRaw wmaRaw ema wma last,
      calculateRSI closePrices 14 = Except.ok rsi ∧
      calculateEMA rsi 9 = Except.ok emaRaw ∧
      calculateWMA rsi 45 = Except.ok wmaRaw ∧
      padStartToMatch rsi emaRaw = Except.ok ema ∧
      padStartToMatch rsi wmaRaw = Except.ok wma ∧
      rsi.length = closePrices.length - 14 ∧
      emaRaw = [] ∧ wmaRaw = [] ∧
      rsi.getLast? = some last ∧
      findIndex ema (fun item => item.y != none) = -1 ∧
      findIndex wma (fun item => item.y != none) = -1 ∧
      max (findIndex ema (fun item => item.y != none))
        (findIndex wma (fun item => item.y != none)) = -1 ∧
      alignSeries closePrices = Except.ok
        { paddedRSIData := [{ x := last.x + 50, y := none }]
          paddedEMAData := [{ x := last.x + 50, y := none }]
          paddedWMAData := [{ x := last.x + 50, y := none }] } := by
  obtain ⟨rsi, emaRaw, wmaRaw, ema, wma, last, hrsi, hema, hwma, hpe, hpw, hx, hex, hwx, hlast,
    hout⟩ := alignSeries_ok closePrices (by omega)
  have hlen : rsi.length = closePrices.length - 14 := by
    have := congrArg List.length hx
    simpa using this
  obtain ⟨er, her, herx⟩ := calculateEMA_ok rsi 9
  obtain ⟨wr, hwr, hwrx⟩ := calculateWMA_ok rsi 45
  rw [hema] at her
  rw [hwma] at hwr
  cases her
  cases hwr
  obtain ⟨-, he2, -, he3⟩ := overlay_padded rsi emaRaw ema 9 herx hpe
    (calculateEMA_values_present rsi 9 emaRaw hema)
  obtain ⟨-, hw2, -, hw3⟩ := overlay_padded rsi wmaRaw wma 45 hwrx hpw
    (calculateWMA_values_present rsi 45 wmaRaw hwma)
  have hes := he3 (by omega)
  have hws := hw3 (by omega)
  have hle : ema.length = rsi.length := by
    have := congrArg List.length hex
    simpa using this
  have hlw : wma.length = rsi.length := by
    have := congrArg List.length hwx
    simpa using this
  refine ⟨rsi, emaRaw, wmaRaw, ema, wma, last, hrsi, hema, hwma, hpe, hpw, hlen,
    List.eq_nil_of_length_eq_zero (by omega), List.eq_nil_of_length_eq_zero (by omega),
    hlast, hes, hws, by rw [hes, hws]; decide, ?_⟩
  rw [hout, hes, hws, trailingLoop_eq_trailingPoints]
  have hmax : max (-1 : Int) (-1) = -1 := by decide
  have htl : (trailingPoints last.x 50).length = 50 := by simp [trailingPoints]
  have hdrop : ∀ l : List Point, l.length = rsi.length →
      (l ++ trailingPoints last.x 50).drop ((l ++ trailingPoints last.x 50).length - 1)
        = [{ x := last.x + 50, y := none }] := by
    intro l hl
    have e : (l ++ trailingPoints last.x 50).length - 1 = l.length + 49 := by
      simp only [List.length_append, htl]
      omega
    rw [e, List.drop_append]
    rfl
  rw [hmax, slice_neg_one, slice_neg_one, slice_neg_one, hdrop rsi rfl, hdrop ema hle,
    hdrop wma hlw]

/-- Witness of claim C20: the 15-point input, whose last RSI position is 14. -/
theorem alignSeries_short_input_witness :
    (15 ≤ scenario15.length ∧ scenario15.length ≤ 23) ∧
    (∃ rsi emaRaw wmaRaw ema wma last,
      calculateRSI scenario15 14 = Except.ok rsi ∧
      calculateEMA rsi 9 = Except.ok emaRaw ∧
      calculateWMA rsi 45 = Except.ok wmaRaw ∧
      padStartToMatch rsi emaRaw = Except.ok ema ∧
      padStartToMatch rsi wmaRaw = Except.ok wma ∧
      rsi.length = scenario15.length - 14 ∧
      emaRaw = [] ∧ wmaRaw = [] ∧
      rsi.getLast? = some last ∧
      findIndex ema (fun item => item.y != none) = -1 ∧
      findIndex wma (fun item => item.y != none) = -1 ∧
      max (findIndex ema (fun item => item.y != none))
        (findIndex wma (fun item => item.y != none)) = -1 ∧
      alignSeries scenario15 = Except.ok
        { paddedRSIData := [{ x := last.x + 50, y := none }]
          paddedEMAData := [{ x := last.x + 50, y := none }]
          paddedWMAData := [{ x := last.x + 50, y := none }] }) ∧
    alignSeries scenario15 = Except.ok
      { paddedRSIData := [{ x := 64, y := none }]
        paddedEMAData := [{ x := 64, y := none }]
        paddedWMAData := [{ x := 64, y := none }] } :=
  ⟨by decide, alignSeries_short_input scenario15 (by decide) (by decide), by decide!⟩

end RsiChart
